import Mathlib

/-!
Shallow embedding of the MySQL dialect query generator and schema orchestrator
(`lib/dialects/mysql/query-interface.js`) and proofs about its specified behavior.

JavaScript objects handed to the generator are modelled as association lists or
structures with `Option` fields; JS truthiness tests on strings are modelled as
inequality with the empty string; fallible code returns `Except`.
-/

namespace SequelizeMySQL

/-- JS `Array.prototype.join` with the given separator. -/
def jsJoin (sep : String) : List String → String
  | [] => ""
  | [x] => x
  | x :: y :: xs => x ++ sep ++ jsJoin sep (y :: xs)

/-- Positions at which `pat` occurs in the character list `s` (occurrences may overlap). -/
def occPositions (pat s : List Char) : List Nat :=
  (List.range (s.length + 1)).filter (fun i => pat.isPrefixOf (s.drop i))

/-- Number of occurrences of the pattern string in `s`. -/
def countSubstr (s pat : String) : Nat := (occPositions pat.data s.data).length

/-- lodash `_.includes` on strings: substring containment test. -/
def jsIncludes (s pat : String) : Bool := !(occPositions pat.data s.data).isEmpty

/-- JS `String.prototype.toUpperCase` on ASCII text. -/
def jsToUpper (s : String) : String := String.mk (s.data.map Char.toUpper)

/-- JS `String.prototype.toLowerCase` on ASCII text. -/
def jsToLower (s : String) : String := String.mk (s.data.map Char.toLower)

/-- Modelled from the spec: the external identifier-quoting primitive ("Identifier/Value
Quoting (external): given, not reimplemented here").  MySQL wraps identifiers in backticks. -/
def quoteIdentifier (s : String) : String := "`" ++ s ++ "`"

/-- Modelled from the spec: table quoting via the same external quoting primitive. -/
def quoteTable (s : String) : String := quoteIdentifier s

/-- Modelled from the spec: the external literal-escaping primitive; wraps a literal in
single quotes. -/
def escapeLiteral (s : String) : String := "'" ++ s ++ "'"

/-- Generator `removeColumnQuery`: the single column-removal statement. -/
def removeColumnQuery (tableName attributeName : String) : String :=
  "ALTER TABLE " ++ quoteTable tableName ++ " DROP " ++ quoteIdentifier attributeName ++ ";"

/-- Generator `dropForeignKeyQuery`: a single drop-foreign-key statement. -/
def dropForeignKeyQuery (tableName foreignKey : String) : String :=
  "ALTER TABLE " ++ quoteTable tableName ++ " DROP FOREIGN KEY "
    ++ quoteIdentifier foreignKey ++ ";"

/-- Generator `removeIndexQuery` (explicit index-name form, the form the orchestrator uses). -/
def removeIndexQuery (tableName indexName : String) : String :=
  "DROP INDEX " ++ quoteIdentifier indexName ++ " ON " ++ quoteTable tableName

/-! ## removeColumn orchestration

The foreign-key introspection rows are represented by their `constraint_name` field,
the only field the orchestration reads. -/

/-- The statement sequence issued by the `removeColumn` orchestration, given the rows
returned by the foreign-key introspection query.  The source short-circuits all
drop-foreign-key statements when the result set is empty or its first row is the implicit
primary-key constraint, and otherwise issues one drop per row; the column-removal
statement always follows. -/
def removeColumnStatements (tableName columnName : String) (results : List String) :
    List String :=
  (if results.length = 0 ∨ results.head? = some "PRIMARY" then []
   else results.map (fun constraintName => dropForeignKeyQuery tableName constraintName))
  ++ [removeColumnQuery tableName columnName]

/-- C1 counterexample: when the introspection result set begins with the implicit
primary-key constraint followed by two foreign-key rows, the orchestration issues only the
column-drop statement, whereas the claim requires the result set to be filtered (two
drop-foreign-key statements, then the column drop). -/
theorem removeColumn_primary_first_no_drops :
    removeColumnStatements "t" "col" ["PRIMARY", "fk1", "fk2"]
        = [removeColumnQuery "t" "col"] ∧
    (["PRIMARY", "fk1", "fk2"].filter (fun c => c != "PRIMARY")).length = 2 := by
  exact ⟨rfl, rfl⟩

/-- C1 amended: the introspection result set is used wholesale rather than filtered: if it
is empty or its first row is the implicit primary-key constraint, no drop-foreign-key
statement is issued; otherwise one drop-foreign-key statement is issued per row; the
column-removal statement is always issued last, so zero qualifying rows yield exactly one
statement. -/
theorem removeColumn_orchestration_characterized
    (tableName columnName : String) (results : List String) :
    (results = [] ∨ results.head? = some "PRIMARY" →
        removeColumnStatements tableName columnName results
          = [removeColumnQuery tableName columnName]) ∧
    (∀ c rest, results = c :: rest → c ≠ "PRIMARY" →
        removeColumnStatements tableName columnName results
          = results.map (dropForeignKeyQuery tableName)
            ++ [removeColumnQuery tableName columnName]) ∧
    (removeColumnStatements tableName columnName results).getLast?
        = some (removeColumnQuery tableName columnName) := by
  refine ⟨?_, ?_, ?_⟩
  · intro h
    have hcond : results.length = 0 ∨ results.head? = some "PRIMARY" := by
      rcases h with h | h
      · exact Or.inl (by simp [h])
      · exact Or.inr h
    unfold removeColumnStatements
    rw [if_pos hcond]
    rfl
  · intro c rest hres hne
    have hcond : ¬ (results.length = 0 ∨ results.head? = some "PRIMARY") := by
      subst hres
      simp only [List.length_cons, List.head?_cons]
      rintro (h | h)
      · omega
      · exact hne (by injection h)
    unfold removeColumnStatements
    rw [if_neg hcond]
  · unfold removeColumnStatements
    exact List.getLast?_concat _

/-- C1 witness: two foreign-key rows yield two drops then the column drop; an empty result
set yields exactly the column drop. -/
theorem removeColumn_orchestration_witness :
    removeColumnStatements "t" "col" ["fk1", "fk2"]
        = [dropForeignKeyQuery "t" "fk1", dropForeignKeyQuery "t" "fk2",
           removeColumnQuery "t" "col"] ∧
    removeColumnStatements "t" "col" [] = [removeColumnQuery "t" "col"] := by
  constructor
  · have h := (removeColumn_orchestration_characterized "t" "col" ["fk1", "fk2"]).2.1
      "fk1" ["fk2"] rfl (by decide)
    simpa using h
  · exact (removeColumn_orchestration_characterized "t" "col" []).1 (Or.inl rfl)

/-! ## removeConstraint orchestration -/

/-- A row of the constraints-introspection query, with the fields the orchestration reads. -/
structure ConstraintRow where
  constraintName : String
  constraintType : String
  tableName : String
deriving DecidableEq

/-- Classified failures raised by the orchestration layer. -/
inductive OrchestrationError where
  | unknownConstraint (constraint : String) (table : String)
deriving DecidableEq

/-- The `removeConstraint` orchestration: given the rows returned by the
constraints-introspection query, either the follow-up statements issued (in order) or the
error raised, mirroring the source (only the first row is inspected; a row with an empty
`constraintType` is falsy in JS and falls into the unknown-constraint branch). -/
def removeConstraint (tableName constraintName : String)
    (constraints : List ConstraintRow) : Except OrchestrationError (List String) :=
  match constraints.head? with
  | some constraint =>
      if constraint.constraintType ≠ "" then
        if constraint.constraintType = "FOREIGN KEY" then
          Except.ok [dropForeignKeyQuery tableName constraintName]
        else
          Except.ok [removeIndexQuery constraint.tableName constraint.constraintName]
      else Except.error (OrchestrationError.unknownConstraint constraintName tableName)
  | none => Except.error (OrchestrationError.unknownConstraint constraintName tableName)

/-- C5: with no introspection row, removeConstraint raises an unknown-constraint error
carrying the constraint name and table, and issues no statement; with a first row of kind
FOREIGN KEY it issues exactly the drop-foreign-key statement; with a first row of any
other (non-empty) kind it issues exactly the drop-index statement built from the returned
constraint's table and name. -/
theorem removeConstraint_behavior (tableName constraintName : String)
    (rows : List ConstraintRow) :
    (rows = [] →
        removeConstraint tableName constraintName rows
          = Except.error (OrchestrationError.unknownConstraint constraintName tableName)) ∧
    (∀ r rest, rows = r :: rest → r.constraintType = "FOREIGN KEY" →
        removeConstraint tableName constraintName rows
          = Except.ok [dropForeignKeyQuery tableName constraintName]) ∧
    (∀ r rest, rows = r :: rest → r.constraintType ≠ "FOREIGN KEY" →
        r.constraintType ≠ "" →
        removeConstraint tableName constraintName rows
          = Except.ok [removeIndexQuery r.tableName r.constraintName]) := by
  refine ⟨?_, ?_, ?_⟩
  · intro h
    subst h
    rfl
  · intro r rest hres hty
    subst hres
    simp [removeConstraint, hty]
  · intro r rest hres hty hne
    subst hres
    simp [removeConstraint, hty, hne]

/-- C5 witness: the spec scenario, a lookup of a missing constraint. -/
theorem removeConstraint_behavior_witness :
    removeConstraint "t" "missing_c" []
      = Except.error (OrchestrationError.unknownConstraint "missing_c" "t") :=
  (removeConstraint_behavior "t" "missing_c" []).1 rfl

/-! ## Stored-function generator pieces and the createFunction orchestration -/

/-- A routine parameter as passed to the generator: JS property presence is modelled with
`Option`. -/
structure FunctionParam where
  name : Option String
  type : Option String
  direction : Option String
deriving DecidableEq

/-- Message built by the source's `throwMethodUndefined` helper. -/
def throwMethodUndefined (methodName : String) : String :=
  "The method \"" ++ methodName ++ "\" is not defined for mysql dialect."

/-- Generator `renameFunction`: the dialect has no routine-rename syntax, so the source
unconditionally throws via `throwMethodUndefined`. -/
def renameFunction (oldFunctionName : String) (params : List FunctionParam)
    (newFunctionName : String) : Except String String :=
  Except.error (throwMethodUndefined "renameFunction")

/-- C9: renameFunction fails for every input with the unsupported-operation message naming
the operation, and never returns SQL text (hence zero statements can be issued). -/
theorem renameFunction_always_unsupported (oldFunctionName newFunctionName : String)
    (params : List FunctionParam) :
    renameFunction oldFunctionName params newFunctionName
        = Except.error (throwMethodUndefined "renameFunction") ∧
    jsIncludes (throwMethodUndefined "renameFunction") "renameFunction" = true ∧
    ∀ sql, renameFunction oldFunctionName params newFunctionName ≠ Except.ok sql := by
  refine ⟨rfl, by decide, ?_⟩
  intro sql h
  exact Except.noConfusion h

/-- The `createFunction` orchestration: given the generated CREATE FUNCTION text and the
execution channel, returns the overall outcome together with the statements submitted, in
order.  Mirrors the source: empty generated text (JS falsy) skips all three steps and
resolves; otherwise the delimiter switch, the body submission terminated by the sentinel,
and the delimiter restore run in sequence, each only after the previous succeeded. -/
def createFunctionOrchestration (functionSql : String)
    (execQuery : String → Except String Unit) : Except String Unit × List String :=
  if functionSql ≠ "" then
    let stmt1 := "DELIMITER __END_FUNCTION__;"
    match execQuery stmt1 with
    | Except.error e => (Except.error e, [stmt1])
    | Except.ok _ =>
        let stmt2 := functionSql ++ "\n" ++ "__END_FUNCTION__"
        match execQuery stmt2 with
        | Except.error e => (Except.error e, [stmt1, stmt2])
        | Except.ok _ =>
            let stmt3 := "DELIMITER ;"
            (execQuery stmt3, [stmt1, stmt2, stmt3])
  else (Except.ok (), [])

/-- C3: the orchestrated createFunction follows the fixed order delimiter-switch, body
submission, delimiter-restore; a step's failure surfaces that step's error and no later
statement is submitted (in particular a step-2 failure leaves step 3 unattempted); empty
generated text skips all three steps and reports success. -/
theorem createFunction_step_sequence (functionSql : String)
    (execQuery : String → Except String Unit) :
    (functionSql = "" →
        createFunctionOrchestration functionSql execQuery = (Except.ok (), [])) ∧
    (functionSql ≠ "" → ∀ e, execQuery "DELIMITER __END_FUNCTION__;" = Except.error e →
        createFunctionOrchestration functionSql execQuery
          = (Except.error e, ["DELIMITER __END_FUNCTION__;"])) ∧
    (functionSql ≠ "" → execQuery "DELIMITER __END_FUNCTION__;" = Except.ok () →
        ∀ e, execQuery (functionSql ++ "\n" ++ "__END_FUNCTION__") = Except.error e →
        createFunctionOrchestration functionSql execQuery
          = (Except.error e,
             ["DELIMITER __END_FUNCTION__;", functionSql ++ "\n" ++ "__END_FUNCTION__"])) ∧
    (functionSql ≠ "" → execQuery "DELIMITER __END_FUNCTION__;" = Except.ok () →
        execQuery (functionSql ++ "\n" ++ "__END_FUNCTION__") = Except.ok () →
        createFunctionOrchestration functionSql execQuery
          = (execQuery "DELIMITER ;",
             ["DELIMITER __END_FUNCTION__;", functionSql ++ "\n" ++ "__END_FUNCTION__",
              "DELIMITER ;"])) := by
  refine ⟨?_, ?_, ?_, ?_⟩
  · intro h
    simp [createFunctionOrchestration, h]
  · intro hne e h1
    simp [createFunctionOrchestration, hne, h1]
  · intro hne h1 e h2
    simp [createFunctionOrchestration, hne, h1, h2]
  · intro hne h1 h2
    simp [createFunctionOrchestration, hne, h1, h2]

/-- A concrete execution channel on which the body submission (step 2) fails. -/
def execFailsOnBody (s : String) : Except String Unit :=
  if s = "DELIMITER __END_FUNCTION__;" then Except.ok ()
  else Except.error "step2 execution error"

/-- C3 witness: the spec scenario where step 2 fails after step 1 succeeds; the sequence
aborts with step 2's error and the delimiter restore is never submitted. -/
theorem createFunction_step_sequence_witness :
    createFunctionOrchestration "CREATE FUNCTION f() RETURNS int BEGIN RETURN 1; END;"
        execFailsOnBody
      = (Except.error "step2 execution error",
         ["DELIMITER __END_FUNCTION__;",
          "CREATE FUNCTION f() RETURNS int BEGIN RETURN 1; END;" ++ "\n"
            ++ "__END_FUNCTION__"]) :=
  (createFunction_step_sequence _ execFailsOnBody).2.2.1 (by decide) (by rfl)
    "step2 execution error" (by rfl)

/-! ## expandFunctionParamList -/

/-- The fragment built for one routine parameter, or the validation failure when the
parameter lacks a type.  Mirrors the source: direction is pushed only when present and its
uppercasing differs from IN, the name is pushed when present, then the type; the pieces
are joined with single spaces. -/
def paramFragment (curParam : FunctionParam) : Except String String :=
  match curParam.type with
  | some ty =>
      Except.ok (jsJoin " "
        ((match curParam.direction with
          | some d => if jsToUpper d ≠ "IN" then [d] else []
          | none => []) ++
         (match curParam.name with
          | some n => [n]
          | none => []) ++ [ty]))
  | none => Except.error "function or trigger used with a parameter without any type"

/-- The parameter-list accumulation loop of `expandFunctionParamList`: a fragment is kept
only when it is non-empty (the JS `if (joined)` truthiness test). -/
def expandParamsLoop : List FunctionParam → Except String (List String)
  | [] => Except.ok []
  | p :: ps =>
      match paramFragment p with
      | Except.error e => Except.error e
      | Except.ok joined =>
          match expandParamsLoop ps with
          | Except.error e => Except.error e
          | Except.ok rest => Except.ok ((if joined ≠ "" then [joined] else []) ++ rest)

/-- Generator `expandFunctionParamList`: requires an array argument (a JS non-array or
undefined is modelled as `none`), then joins the accumulated fragments with commas. -/
def expandFunctionParamList (params : Option (List FunctionParam)) :
    Except String String :=
  match params with
  | none => Except.error "expandFunctionParamList: function parameters array required, including an empty one for no arguments"
  | some ps => (expandParamsLoop ps).map (fun l => jsJoin ", " l)

/-- The per-parameter fragment as the spec describes it: the direction exactly when its
uppercasing is not IN, the name exactly when present, then the type. -/
def paramFragmentSpec (p : FunctionParam) : String :=
  (match p.direction with
   | some d => if jsToUpper d ≠ "IN" then d ++ " " else ""
   | none => "") ++
  (match p.name with
   | some n => n ++ " "
   | none => "") ++ p.type.getD ""

theorem append_ne_empty_of_right (a b : String) (hb : b ≠ "") : a ++ b ≠ "" := by
  obtain ⟨la⟩ := a
  obtain ⟨lb⟩ := b
  intro h
  apply hb
  have : la ++ lb = [] := by
    have h' : String.mk (la ++ lb) = String.mk [] := h
    injection h'
  have : lb = [] := (List.append_eq_nil.mp this).2
  simp [this]

/-- For a parameter whose type is present and non-empty, the loop fragment coincides with
the spec fragment and is non-empty (so it is never dropped). -/
theorem paramFragment_of_nonempty_type (p : FunctionParam) (t : String)
    (hty : p.type = some t) (hne : t ≠ "") :
    paramFragment p = Except.ok (paramFragmentSpec p) ∧ paramFragmentSpec p ≠ "" := by
  have htyD : p.type.getD "" = t := by rw [hty]; rfl
  obtain ⟨pn, pt, pd⟩ := p
  simp only at hty
  subst hty
  constructor
  · unfold paramFragment paramFragmentSpec
    cases pd with
    | none =>
        cases pn with
        | none => simp [jsJoin]
        | some n => simp [jsJoin, String.append_assoc]
    | some d =>
        by_cases hd : jsToUpper d = "IN" <;>
          cases pn with
          | none => simp [hd, jsJoin, String.append_assoc]
          | some n => simp [hd, jsJoin, String.append_assoc]
  · unfold paramFragmentSpec
    simp only [Option.getD_some]
    rw [String.append_assoc]
    exact append_ne_empty_of_right _ _ (append_ne_empty_of_right _ _ hne)

theorem expandParamsLoop_all_typed (ps : List FunctionParam)
    (h : ∀ p ∈ ps, ∃ t, p.type = some t ∧ t ≠ "") :
    expandParamsLoop ps = Except.ok (ps.map paramFragmentSpec) := by
  induction ps with
  | nil => rfl
  | cons p rest ih =>
      obtain ⟨t, hty, hne⟩ := h p (List.mem_cons_self p rest)
      obtain ⟨hfrag, hkeep⟩ := paramFragment_of_nonempty_type p t hty hne
      have hrest := ih (fun q hq => h q (List.mem_cons_of_mem p hq))
      simp [expandParamsLoop, hfrag, hrest, hkeep]

/-- C6 counterexample: an entry whose `type` property is present but empty raises no error,
yet its (empty) fragment is dropped by the JS truthiness test, so the output holds zero
parameters while the input holds one — refuting the claimed count equality. -/
theorem expandFunctionParamList_empty_type_dropped :
    expandFunctionParamList (some [⟨none, some "", none⟩]) = Except.ok "" ∧
    expandParamsLoop [⟨none, some "", none⟩] = Except.ok [] ∧
    ([(⟨none, some "", none⟩ : FunctionParam)]).length = 1 := by
  exact ⟨rfl, rfl, rfl⟩

/-- C6 amended: a non-array argument or any entry lacking the `type` property raises a
ParameterError and produces no output; for a non-empty parameter list in which every entry
has a non-empty type, the output parameter count equals the input count and each fragment
holds the direction exactly when its uppercasing is not IN and the name exactly when
present (entries with a present-but-empty type are silently dropped instead). -/
theorem expandFunctionParamList_characterized :
    (expandFunctionParamList none
        = Except.error "expandFunctionParamList: function parameters array required, including an empty one for no arguments") ∧
    (∀ ps : List FunctionParam, (∃ p ∈ ps, p.type = none) →
        ∃ m, expandFunctionParamList (some ps) = Except.error m) ∧
    (∀ ps : List FunctionParam, ps ≠ [] →
        (∀ p ∈ ps, ∃ t, p.type = some t ∧ t ≠ "") →
        expandParamsLoop ps = Except.ok (ps.map paramFragmentSpec) ∧
        (ps.map paramFragmentSpec).length = ps.length ∧
        expandFunctionParamList (some ps)
          = Except.ok (jsJoin ", " (ps.map paramFragmentSpec))) := by
  refine ⟨rfl, ?_, ?_⟩
  · intro ps h
    obtain ⟨p, hmem, hty⟩ := h
    induction ps with
    | nil => cases hmem
    | cons q rest ih =>
        rcases List.mem_cons.mp hmem with rfl | hmem'
        · exact ⟨"function or trigger used with a parameter without any type",
            by simp [expandFunctionParamList, expandParamsLoop, paramFragment, hty,
              Except.map]⟩
        · cases hq : paramFragment q with
          | error e =>
              exact ⟨e, by simp [expandFunctionParamList, expandParamsLoop, hq, Except.map]⟩
          | ok joined =>
              obtain ⟨m, hm⟩ := ih hmem'
              refine ⟨m, ?_⟩
              simp only [expandFunctionParamList, Except.map] at hm ⊢
              cases hrest : expandParamsLoop rest with
              | error e =>
                  simp only [hrest] at hm
                  simp [expandParamsLoop, hq, hrest, hm]
              | ok l => simp [hrest] at hm
  · intro ps hne h
    have hloop := expandParamsLoop_all_typed ps h
    refine ⟨hloop, by simp, ?_⟩
    simp [expandFunctionParamList, hloop, Except.map]

/-- C6 witness: a two-entry list with an OUT named parameter and an anonymous IN
parameter. -/
theorem expandFunctionParamList_characterized_witness :
    expandFunctionParamList (some [⟨some "x", some "int", some "OUT"⟩,
        ⟨none, some "varchar", some "in"⟩]) = Except.ok "OUT x int, varchar" := by
  have h := (expandFunctionParamList_characterized).2.2
      [⟨some "x", some "int", some "OUT"⟩, ⟨none, some "varchar", some "in"⟩]
      (by simp)
      (by
        intro p hp
        rcases List.mem_cons.mp hp with rfl | hp'
        · exact ⟨"int", rfl, by decide⟩
        · rcases List.mem_cons.mp hp' with rfl | hp''
          · exact ⟨"varchar", rfl, by decide⟩
          · cases hp'')
  rw [h.2.2]
  exact congrArg Except.ok (by decide)

/-! ## Generator side effects: upsertQuery and the Cast remap (C7) -/

/-- JS plain-object property read. -/
def getProp : List (String × String) → String → Option String
  | [], _ => none
  | p :: rest, k => if p.1 = k then some p.2 else getProp rest k

/-- JS plain-object property presence. -/
def hasProp : List (String × String) → String → Bool
  | [], _ => false
  | p :: rest, k => if p.1 = k then true else hasProp rest k

/-- JS plain-object property write: overwrite in place when the key exists, append
otherwise. -/
def setProp (obj : List (String × String)) (k v : String) : List (String × String) :=
  if hasProp obj k then obj.map (fun p => if p.1 = k then (k, v) else p)
  else obj ++ [(k, v)]

theorem getProp_map_overwrite_same (k v : String) :
    ∀ rest : List (String × String), hasProp rest k = true →
      getProp (rest.map (fun p => if p.1 = k then (k, v) else p)) k = some v
  | [], h => by simp [hasProp] at h
  | q :: rs, h => by
      by_cases hq : q.1 = k
      · simp [getProp, hq]
      · have h' : hasProp rs k = true := by simpa [hasProp, hq] using h
        simpa [getProp, hq] using getProp_map_overwrite_same k v rs h'

theorem getProp_append_fresh (k v : String) :
    ∀ obj : List (String × String), hasProp obj k = false →
      getProp (obj ++ [(k, v)]) k = some v
  | [], _ => by simp [getProp]
  | q :: rs, h => by
      have hq : ¬ q.1 = k := by
        intro hq
        simp [hasProp, hq] at h
      have h' : hasProp rs k = false := by simpa [hasProp, hq] using h
      simpa [getProp, hq] using getProp_append_fresh k v rs h'

theorem getProp_setProp_same (obj : List (String × String)) (k v : String) :
    getProp (setProp obj k v) k = some v := by
  unfold setProp
  by_cases h : hasProp obj k = true
  · rw [if_pos h]
    exact getProp_map_overwrite_same k v obj h
  · rw [if_neg h]
    exact getProp_append_fresh k v obj (Bool.not_eq_true _ ▸ Bool.of_not_eq_true h)

theorem getProp_map_overwrite_other (k v k' : String) (hk : k' ≠ k) :
    ∀ rest : List (String × String),
      getProp (rest.map (fun p => if p.1 = k then (k, v) else p)) k' = getProp rest k'
  | [] => rfl
  | q :: rs => by
      have hkk : ¬ k = k' := fun h => hk h.symm
      by_cases hq : q.1 = k
      · have hq' : ¬ q.1 = k' := by rw [hq]; exact hkk
        simpa [getProp, hq, hq', hkk] using getProp_map_overwrite_other k v k' hk rs
      · by_cases hq' : q.1 = k'
        · simp [getProp, hq, hq', hk]
        · simpa [getProp, hq, hq'] using getProp_map_overwrite_other k v k' hk rs

theorem getProp_append_other (k v k' : String) (hk : k' ≠ k) :
    ∀ obj : List (String × String),
      getProp (obj ++ [(k, v)]) k' = getProp obj k'
  | [] => by
      have hkk : ¬ k = k' := fun h => hk h.symm
      simp [getProp, hkk]
  | q :: rs => by
      by_cases hq : q.1 = k'
      · simp [getProp, hq]
      · simpa [getProp, hq] using getProp_append_other k v k' hk rs

theorem getProp_setProp_other (obj : List (String × String)) (k v k' : String)
    (hk : k' ≠ k) :
    getProp (setProp obj k v) k' = getProp obj k' := by
  unfold setProp
  by_cases h : hasProp obj k = true
  · rw [if_pos h]
    exact getProp_map_overwrite_other k v k' hk obj
  · rw [if_neg h]
    exact getProp_append_other k v k' hk obj

/-- The `col=VALUES(col)` pairs the source builds from the update-value keys. -/
def onDuplicateFragment (updateKeys : List String) : String :=
  jsJoin ", " (updateKeys.map (fun key =>
    quoteIdentifier key ++ "=VALUES(" ++ quoteIdentifier key ++ ")"))

/-- Generator `upsertQuery` in state-passing form: the JS method assigns
`options.onDuplicate` twice (first the prefix, then the appended pair list) and delegates
to the external insert-statement generator; the result pairs the produced SQL with the
options object as it stands after the call. -/
def upsertQuery
    (insertQuery : String → List (String × String) → List (String × String) → String)
    (tableName : String) (insertValues : List (String × String))
    (updateKeys : List String) (options : List (String × String)) :
    String × List (String × String) :=
  let options1 := setProp options "onDuplicate" "UPDATE "
  let options2 := setProp options1 "onDuplicate"
    ((getProp options1 "onDuplicate").getD "" ++ onDuplicateFragment updateKeys)
  (insertQuery tableName insertValues options2, options2)

/-- A structured-value cast node as passed to `handleSequelizeMethod`. -/
structure CastNode where
  type : String
  json : Bool
deriving DecidableEq

/-- JS case-insensitive regex test of a literal (lowercase) pattern: `/pat/i.test(s)`. -/
def iTest (pat s : String) : Bool := jsIncludes (jsToLower s) pat

/-- The in-place Cast `type` rewrite performed by `handleSequelizeMethod` for this
dialect, in state-passing form: the returned node is the argument as it stands after the
call. -/
def castTypeRemap (smth : CastNode) : CastNode :=
  if iTest "timestamp" smth.type then { smth with type := "datetime" }
  else if smth.json && iTest "boolean" smth.type then { smth with type := "char" }
  else if iTest "double precision" smth.type || iTest "boolean" smth.type
      || iTest "integer" smth.type then { smth with type := "decimal" }
  else if iTest "text" smth.type then { smth with type := "char" }
  else smth

/-- C7 counterexample: the generator is not side-effect free.  `upsertQuery` writes the
`onDuplicate` fragment into its options argument (here: an options object that was empty
before the call carries the fragment afterwards), and the Cast handler overwrites the
node's `type` field in place. -/
theorem upsertQuery_mutates_options :
    (upsertQuery (fun _ _ _ => "") "t" [] ["a"] []).2
        = [("onDuplicate", "UPDATE `a`=VALUES(`a`)")] ∧
    (upsertQuery (fun _ _ _ => "") "t" [] ["a"] []).2 ≠ ([] : List (String × String)) ∧
    castTypeRemap ⟨"timestamp", false⟩ ≠ ⟨"timestamp", false⟩ := by
  refine ⟨by decide, by decide, by decide⟩

/-- C7 amended: every generator function is deterministic (a Lean function of its inputs),
but `upsertQuery` and the Cast branch of `handleSequelizeMethod` do mutate their
arguments: after `upsertQuery` the options object's `onDuplicate` property holds `UPDATE `
followed by the comma-joined `col=VALUES(col)` pairs while every other property is
unchanged, the produced SQL is exactly the delegated insert-statement text for the mutated
options, and the Cast rewrite changes at most the `type` field (never `json`). -/
theorem generator_mutation_characterized
    (insertQuery : String → List (String × String) → List (String × String) → String)
    (tableName : String) (insertValues : List (String × String))
    (updateKeys : List String) (options : List (String × String)) (smth : CastNode) :
    getProp (upsertQuery insertQuery tableName insertValues updateKeys options).2
        "onDuplicate" = some ("UPDATE " ++ onDuplicateFragment updateKeys) ∧
    (∀ k, k ≠ "onDuplicate" →
        getProp (upsertQuery insertQuery tableName insertValues updateKeys options).2 k
          = getProp options k) ∧
    (upsertQuery insertQuery tableName insertValues updateKeys options).1
        = insertQuery tableName insertValues
            (upsertQuery insertQuery tableName insertValues updateKeys options).2 ∧
    (castTypeRemap smth).json = smth.json := by
  refine ⟨?_, ?_, rfl, ?_⟩
  · show getProp (setProp _ "onDuplicate" _) "onDuplicate" = _
    rw [getProp_setProp_same]
    rw [getProp_setProp_same]
    rfl
  · intro k hk
    show getProp (setProp _ "onDuplicate" _) k = _
    rw [getProp_setProp_other _ _ _ _ hk, getProp_setProp_other _ _ _ _ hk]
  · unfold castTypeRemap
    split
    · rfl
    · split
      · rfl
      · split
        · rfl
        · split <;> rfl

/-- C7 witness: a concrete options object with an unrelated property; the property
survives the call unchanged while `onDuplicate` is written, and a Cast node keeps its
`json` flag. -/
theorem generator_mutation_characterized_witness :
    getProp (upsertQuery (fun _ _ _ => "") "t" [] ["a"] [("raw", "true")]).2 "raw"
        = some "true" ∧
    (castTypeRemap ⟨"text", false⟩).json = false := by
  constructor
  · rw [(generator_mutation_characterized (fun _ _ _ => "") "t" [] ["a"]
      [("raw", "true")] ⟨"text", false⟩).2.1 "raw" (by decide)]
    decide
  · exact (generator_mutation_characterized (fun _ _ _ => "") "t" [] ["a"]
      [("raw", "true")] ⟨"text", false⟩).2.2.2

/-! ## The expression tokenizer (`_checkValidJsonStatement`)

The three source regexes are modelled as explicit matchers over character lists, following
the regex engine's alternation order and greedy/backtracking behavior. -/

/-- JS regex whitespace class on ASCII text. -/
def isJsWs (c : Char) : Bool :=
  c = ' ' || c = '\t' || c = '\n' || c = '\r' || c = '\x0b' || c = '\x0c'

/-- ASCII letter: the case-insensitive `[a-z]` class of the source regexes. -/
def isAsciiLetter (c : Char) : Bool :=
  ('a' ≤ c && c ≤ 'z') || ('A' ≤ c && c ≤ 'Z')

/-- JS regex `\w` class: ASCII letters, digits and underscore. -/
def isWordChar (c : Char) : Bool := isAsciiLetter c || c.isDigit || c = '_'

/-- One `[a-z]+_` prefix group of the JSON function-name pattern (the letter run is
maximal; the group then requires an underscore). -/
def prefixGroup (cs : List Char) : Option (List Char) :=
  if (cs.takeWhile isAsciiLetter).length = 0 then none
  else
    match cs.drop (cs.takeWhile isAsciiLetter).length with
    | '_' :: rest => some rest
    | _ => none

/-- The root token `json` (case-insensitive) of the function-name pattern. -/
def matchRootJson : List Char → Option (List Char)
  | c1 :: rest1 =>
      if c1.toLower = 'j' then
        match rest1 with
        | c2 :: c3 :: c4 :: rest =>
            if c2.toLower = 's' ∧ c3.toLower = 'o' ∧ c4.toLower = 'n' then some rest
            else none
        | _ => none
      else none
  | [] => none

/-- One `_[a-z]+` suffix group of the function-name pattern. -/
def suffixGroup : List Char → Option (List Char)
  | '_' :: rest =>
      if (rest.takeWhile isAsciiLetter).length = 0 then none
      else some (rest.drop (rest.takeWhile isAsciiLetter).length)
  | _ => none

/-- All remainders reachable after the function-name pattern
`(?:[a-z]+_){0,2}jsonb?(?:_[a-z]+){0,2}`, in the order the regex engine tries them
(greedy: two groups before one before zero, `b` consumed before skipped).  Every
candidate ends at the same first `(` when one is followed by `(`, since name characters
are never parentheses. -/
def nameEnds (body : List Char) : List (List Char) :=
  (([prefixGroup body >>= prefixGroup, prefixGroup body, some body]).filterMap id).flatMap
    (fun r =>
      match matchRootJson r with
      | some rest =>
          (match rest with
           | c :: rest' => if c.toLower = 'b' then [rest', rest] else [rest]
           | [] => [[]]).flatMap
            (fun s => ([suffixGroup s >>= suffixGroup, suffixGroup s, some s]).filterMap id)
      | none => [])

/-- The JSON function-name regex `^\s*((?:[a-z]+_){0,2}jsonb?(?:_[a-z]+){0,2})\([^)]*\)`:
on success, the number of characters from the cursor to the `(` — the amount the source
advances by (`match[0].indexOf('(')`).  The tail `\([^)]*\)` additionally requires a `)`
further on. -/
def matchJsonFunction (cs : List Char) : Option Nat :=
  let w := (cs.takeWhile isJsWs).length
  let body := cs.drop w
  match (nameEnds body).find? (fun r =>
      r.head? == some '(' && (r.drop 1).contains ')') with
  | some r => some (w + (body.length - r.length))
  | none => none

/-- Operator length at the cursor for `->>? | @> | <@ | \?[|&]? | \|\| | #-`, following
the regex alternation and greediness. -/
def opLen : List Char → Option Nat
  | [] => none
  | c :: rest =>
      if c = '-' then
        match rest with
        | '>' :: '>' :: _ => some 3
        | '>' :: _ => some 2
        | _ => none
      else if c = '@' then
        match rest with
        | '>' :: _ => some 2
        | _ => none
      else if c = '<' then
        match rest with
        | '@' :: _ => some 2
        | _ => none
      else if c = '?' then
        match rest with
        | '|' :: _ => some 2
        | '&' :: _ => some 2
        | _ => some 1
      else if c = '|' then
        match rest with
        | '|' :: _ => some 2
        | _ => none
      else if c = '#' then
        match rest with
        | '-' :: _ => some 2
        | _ => none
      else none

/-- The JSON operator regex `^\s*(->>?|@>|<@|\?[|&]?|\|{2}|#-)`: total consumed length
(leading whitespace plus operator). -/
def matchJsonOperator (cs : List Char) : Option Nat :=
  let w := (cs.takeWhile isJsWs).length
  (opLen (cs.drop w)).map (fun n => w + n)

/-- Body scan of a quoted run with doubled-quote escaping,
`([`"'])(?:(?!\2).|\2{2})*\2` after the opening quote: returns the number of characters
consumed after the opening quote (body plus closing quote).  `acc` counts the body
consumed so far; `fb` is the backtracking fallback recorded at the most recent doubled
quote, where the engine closes when no clean closing quote is reachable (the `.` of the
body never matches a newline). -/
def scanQuoted (q : Char) : List Char → Nat → Option Nat → Option Nat
  | [], _, fb => fb
  | c :: rest, acc, fb =>
      if c = q then
        match rest with
        | c' :: rest' =>
            if c' = q then scanQuoted q rest' (acc + 2) (some (acc + 1))
            else some (acc + 1)
        | [] => some (acc + 1)
      else if c = '\n' then fb
      else scanQuoted q rest (acc + 1) fb

/-- The `[().,;+-]` alternative of the generic-token group: one punctuation character. -/
def punctAlt : List Char → Option (String × Nat)
  | [] => none
  | c :: _ =>
      if c = '(' ∨ c = ')' ∨ c = '.' ∨ c = ',' ∨ c = ';' ∨ c = '+' ∨ c = '-' then
        some (String.mk [c], 1)
      else none

/-- The `[\w\d\s]+` and `[().,;+-]` alternatives of the generic-token group: captured
text and its length. -/
def wordOrPunct (cs : List Char) : Option (String × Nat) :=
  if (cs.takeWhile (fun c => isWordChar c || isJsWs c)).length ≠ 0 then
    some (String.mk (cs.take ((cs.takeWhile (fun c => isWordChar c || isJsWs c)).length)),
      (cs.takeWhile (fun c => isWordChar c || isJsWs c)).length)
  else punctAlt cs

/-- The capture group of the generic-token regex, alternatives in source order: a quoted
run, a word/whitespace run, or one punctuation character. -/
def groupMatch : List Char → Option (String × Nat)
  | [] => none
  | c :: rest =>
      if c = '`' ∨ c = '"' ∨ c = '\'' then
        match scanQuoted c rest 0 none with
        | some n => some (String.mk ((c :: rest).take (n + 1)), n + 1)
        | none => wordOrPunct (c :: rest)
      else wordOrPunct (c :: rest)

/-- Try the token-capture group after a whitespace prefix of length `w`, backtracking the
leading `\s*` to shorter prefixes when the group fails (longest first, as the engine
does); returns the captured group and the total consumed length. -/
def matchTokenAt (cs : List Char) : Nat → Option (String × Nat)
  | 0 => (groupMatch cs).map (fun p => (p.1, p.2))
  | w + 1 =>
      match groupMatch (cs.drop (w + 1)) with
      | some (tok, n) => some (tok, w + 1 + n)
      | none => matchTokenAt cs w

/-- The generic-token regex `^\s*((quoted run)|[\w\d\s]+|[().,;+-])`. -/
def matchToken (cs : List Char) : Option (String × Nat) :=
  matchTokenAt cs ((cs.takeWhile isJsWs).length)

/-- The scan-loop state of `_checkValidJsonStatement`. -/
structure ScanState where
  hasJsonFunction : Bool
  openingBrackets : Nat
  closingBrackets : Nat
  hasInvalidToken : Bool
deriving DecidableEq

/-- The while loop of `_checkValidJsonStatement`: at each cursor position try the JSON
function-name regex, then the JSON operator regex, then the generic-token regex; a
consumed `(` or `)` adjusts the bracket counts, a consumed `;` sets the invalid flag and
breaks immediately (without advancing), and a position matching no rule ends the scan.
The fuel argument only bounds the iteration count; every match consumes at least one
character, so the `length + 1` fuel supplied by `scanStatement` never runs out
(`scanLoop_fuel_irrelevant`). -/
def scanLoop : Nat → List Char → ScanState → ScanState
  | 0, _, st => st
  | _ + 1, [], st => st
  | fuel + 1, cs, st =>
      match matchJsonFunction cs with
      | some adv => scanLoop fuel (cs.drop adv) { st with hasJsonFunction := true }
      | none =>
          match matchJsonOperator cs with
          | some adv => scanLoop fuel (cs.drop adv) { st with hasJsonFunction := true }
          | none =>
              match matchToken cs with
              | some (tok, adv) =>
                  if tok = "(" then
                    scanLoop fuel (cs.drop adv)
                      { st with openingBrackets := st.openingBrackets + 1 }
                  else if tok = ")" then
                    scanLoop fuel (cs.drop adv)
                      { st with closingBrackets := st.closingBrackets + 1 }
                  else if tok = ";" then { st with hasInvalidToken := true }
                  else scanLoop fuel (cs.drop adv) st
              | none => st

/-- Final scan state over a statement string. -/
def scanStatement (stmt : String) : ScanState :=
  scanLoop (stmt.data.length + 1) stmt.data ⟨false, 0, 0, false⟩

/-- Generator `_checkValidJsonStatement` on a string argument: scan, then mark the
expression invalid when the bracket counts disagree, raise the parse failure naming the
offending text when a JSON construct was recorded on an invalid expression, and otherwise
return whether a JSON construct was recorded. -/
def checkValidJsonStatement (stmt : String) : Except String Bool :=
  let st := scanStatement stmt
  let invalid := st.hasInvalidToken || (st.openingBrackets != st.closingBrackets)
  if st.hasJsonFunction && invalid then
    Except.error ("Invalid json statement: " ++ stmt)
  else Except.ok st.hasJsonFunction

/-- A JS value as could be passed for the `stmt` argument. -/
inductive JsValue where
  | str (s : String)
  | num (n : Int)
  | boolean (b : Bool)
  | nullV
  | undefinedV
  | obj (fields : List (String × String))
deriving DecidableEq

/-- The full `_checkValidJsonStatement` entry point, including the leading `_.isString`
guard that classifies every non-string argument as a plain path. -/
def checkValidJsonStatementJs (v : JsValue) : Except String Bool :=
  match v with
  | JsValue.str s => checkValidJsonStatement s
  | _ => Except.ok false

/-- C10: every non-string argument makes the tokenizer return false — a plain path —
without raising, regardless of the argument's content. -/
theorem checkValidJson_non_string (v : JsValue) (h : ∀ s, v ≠ JsValue.str s) :
    checkValidJsonStatementJs v = Except.ok false := by
  cases v with
  | str s => exact absurd rfl (h s)
  | num n => rfl
  | boolean b => rfl
  | nullV => rfl
  | undefinedV => rfl
  | obj fields => rfl

/-- C10 witness: a number, null and undefined are all classified as plain paths without
raising. -/
theorem checkValidJson_non_string_witness :
    checkValidJsonStatementJs (JsValue.num 42) = Except.ok false ∧
    checkValidJsonStatementJs JsValue.nullV = Except.ok false ∧
    checkValidJsonStatementJs JsValue.undefinedV = Except.ok false :=
  ⟨checkValidJson_non_string (JsValue.num 42) (fun _ h => JsValue.noConfusion h),
   checkValidJson_non_string JsValue.nullV (fun _ h => JsValue.noConfusion h),
   checkValidJson_non_string JsValue.undefinedV (fun _ h => JsValue.noConfusion h)⟩

theorem take_eq_semicolon_head (cs : List Char) (L : Nat)
    (h : cs.take L = [';']) : cs.head? = some ';' := by
  cases cs with
  | nil => simp at h
  | cons c t =>
      cases L with
      | zero => simp at h
      | succ L' =>
          simp only [List.take_succ_cons] at h
          injection h with h1 _
          rw [h1]
          rfl

theorem wordOrPunct_semicolon (cs : List Char) (tok : String) (n : Nat)
    (h : wordOrPunct cs = some (tok, n)) (htok : tok = ";") :
    cs.head? = some ';' := by
  subst htok
  unfold wordOrPunct at h
  by_cases hlen : (cs.takeWhile (fun c => isWordChar c || isJsWs c)).length ≠ 0
  · rw [if_pos hlen] at h
    injection h with h'
    have h1 : String.mk (cs.take ((cs.takeWhile (fun c => isWordChar c || isJsWs c)).length))
        = ";" := congrArg Prod.fst h'
    have h2 : cs.take ((cs.takeWhile (fun c => isWordChar c || isJsWs c)).length) = [';'] :=
      congrArg String.data h1
    exact take_eq_semicolon_head _ _ h2
  · rw [if_neg hlen] at h
    cases cs with
    | nil => cases h
    | cons c t =>
        simp only [punctAlt] at h
        by_cases hc : c = '(' ∨ c = ')' ∨ c = '.' ∨ c = ',' ∨ c = ';' ∨ c = '+' ∨ c = '-'
        · rw [if_pos hc] at h
          injection h with h'
          have h1 : String.mk [c] = ";" := congrArg Prod.fst h'
          have h2 : [c] = [';'] := congrArg String.data h1
          injection h2 with h3 _
          rw [h3]
          rfl
        · rw [if_neg hc] at h
          cases h

theorem groupMatch_semicolon (cs : List Char) (tok : String) (n : Nat)
    (h : groupMatch cs = some (tok, n)) (htok : tok = ";") :
    cs.head? = some ';' := by
  cases cs with
  | nil => cases h
  | cons c rest =>
      simp only [groupMatch] at h
      by_cases hq : c = '`' ∨ c = '"' ∨ c = '\''
      · rw [if_pos hq] at h
        cases hs : scanQuoted c rest 0 none with
        | some m =>
            rw [hs] at h
            subst htok
            injection h with h'
            have h1 : String.mk ((c :: rest).take (m + 1)) = ";" := congrArg Prod.fst h'
            have h2 : (c :: rest).take (m + 1) = [';'] := congrArg String.data h1
            exact take_eq_semicolon_head _ _ h2
        | none =>
            rw [hs] at h
            exact wordOrPunct_semicolon _ _ _ h htok
      · rw [if_neg hq] at h
        exact wordOrPunct_semicolon _ _ _ h htok

theorem head_ws_of_lt_takeWhile :
    ∀ (cs : List Char) (k : Nat), k < (cs.takeWhile isJsWs).length →
      ∃ c, (cs.drop k).head? = some c ∧ isJsWs c = true
  | [], k, h => by simp at h
  | c :: t, k, h => by
      by_cases hc : isJsWs c = true
      · cases k with
        | zero => exact ⟨c, rfl, hc⟩
        | succ k' =>
            have h' : k' < (t.takeWhile isJsWs).length := by
              simpa [List.takeWhile_cons, hc] using h
            simpa using head_ws_of_lt_takeWhile t k' h'
      · rw [List.takeWhile_cons, if_neg (by simpa using hc)] at h
        simp at h

theorem matchTokenAt_semicolon (cs : List Char) :
    ∀ (w adv : Nat), w ≤ (cs.takeWhile isJsWs).length →
      matchTokenAt cs w = some (";", adv) →
      (cs.drop ((cs.takeWhile isJsWs).length)).head? = some ';'
  | 0, adv, _, h => by
      unfold matchTokenAt at h
      cases hg : groupMatch cs with
      | none => rw [hg] at h; cases h
      | some p =>
          rw [hg] at h
          injection h with h'
          have htok : p.1 = ";" := congrArg Prod.fst h'
          have hhead : cs.head? = some ';' := groupMatch_semicolon cs p.1 p.2 (by rw [hg]) htok
          have hmax : (cs.takeWhile isJsWs).length = 0 := by
            by_contra hne
            obtain ⟨c, hcH, hcW⟩ := head_ws_of_lt_takeWhile cs 0 (Nat.pos_of_ne_zero hne)
            rw [List.drop_zero, hhead] at hcH
            injection hcH with hc
            rw [← hc] at hcW
            simp [isJsWs] at hcW
          rw [hmax, List.drop_zero]
          exact hhead
  | w + 1, adv, hw, h => by
      unfold matchTokenAt at h
      cases hg : groupMatch (cs.drop (w + 1)) with
      | none =>
          rw [hg] at h
          exact matchTokenAt_semicolon cs w adv (Nat.le_of_succ_le hw) h
      | some p =>
          rw [hg] at h
          injection h with h'
          have htok : p.1 = ";" := congrArg Prod.fst h'
          have hhead : (cs.drop (w + 1)).head? = some ';' :=
            groupMatch_semicolon _ p.1 p.2 (by rw [hg]) htok
          have hmax : (cs.takeWhile isJsWs).length = w + 1 := by
            rcases Nat.lt_or_ge (w + 1) ((cs.takeWhile isJsWs).length) with hlt | hge
            · exfalso
              obtain ⟨c, hcH, hcW⟩ := head_ws_of_lt_takeWhile cs (w + 1) hlt
              rw [hhead] at hcH
              injection hcH with hc
              rw [← hc] at hcW
              simp [isJsWs] at hcW
            · omega
          rw [hmax]
          exact hhead

theorem json_matchers_none_of_semicolon (cs : List Char)
    (h : (cs.drop ((cs.takeWhile isJsWs).length)).head? = some ';') :
    matchJsonFunction cs = none ∧ matchJsonOperator cs = none := by
  obtain ⟨t, ht⟩ : ∃ t, cs.drop ((cs.takeWhile isJsWs).length) = ';' :: t := by
    cases hb : cs.drop ((cs.takeWhile isJsWs).length) with
    | nil => rw [hb] at h; cases h
    | cons c t =>
        rw [hb] at h
        injection h with h'
        exact ⟨t, by rw [← h']⟩
  have h1 : nameEnds (cs.drop ((cs.takeWhile isJsWs).length)) = [] := by
    rw [ht]
    rfl
  have h2 : opLen (cs.drop ((cs.takeWhile isJsWs).length)) = none := by
    rw [ht]
    rfl
  constructor
  · simp [matchJsonFunction, h1]
  · simp [matchJsonOperator, h2]

theorem scanLoop_semicolon_stops (fuel : Nat) (cs : List Char) (st : ScanState)
    (adv : Nat) (h : matchToken cs = some (";", adv)) :
    scanLoop (fuel + 1) cs st = { st with hasInvalidToken := true } := by
  obtain ⟨c, t, rfl⟩ : ∃ c t, cs = c :: t := by
    cases cs with
    | nil => cases h
    | cons c t => exact ⟨c, t, rfl⟩
  have hsemi := matchTokenAt_semicolon (c :: t) _ adv le_rfl h
  obtain ⟨hf, ho⟩ := json_matchers_none_of_semicolon (c :: t) hsemi
  simp [scanLoop, hf, ho, h]

/-- C4: after the tokenizer scans a string, the parse failure naming the offending text is
raised exactly when a JSON construct was recorded and the expression is invalid (invalid
token seen or bracket counts unbalanced); otherwise the result is whether a JSON construct
was recorded; and a consumed semicolon token sets the invalid flag and stops the scan
immediately, leaving the rest of the state untouched. -/
theorem checkValidJsonStatement_classification (stmt : String) :
    (checkValidJsonStatement stmt = Except.error ("Invalid json statement: " ++ stmt) ↔
      (scanStatement stmt).hasJsonFunction = true ∧
        ((scanStatement stmt).hasInvalidToken = true ∨
          (scanStatement stmt).openingBrackets ≠ (scanStatement stmt).closingBrackets)) ∧
    (¬ ((scanStatement stmt).hasJsonFunction = true ∧
        ((scanStatement stmt).hasInvalidToken = true ∨
          (scanStatement stmt).openingBrackets ≠ (scanStatement stmt).closingBrackets)) →
      checkValidJsonStatement stmt = Except.ok (scanStatement stmt).hasJsonFunction) ∧
    (∀ (fuel : Nat) (cs : List Char) (st : ScanState) (adv : Nat),
      matchToken cs = some (";", adv) →
      scanLoop (fuel + 1) cs st = { st with hasInvalidToken := true }) := by
  have hbool : ((scanStatement stmt).hasJsonFunction &&
      ((scanStatement stmt).hasInvalidToken ||
        ((scanStatement stmt).openingBrackets != (scanStatement stmt).closingBrackets)))
        = true ↔
      ((scanStatement stmt).hasJsonFunction = true ∧
        ((scanStatement stmt).hasInvalidToken = true ∨
          (scanStatement stmt).openingBrackets ≠ (scanStatement stmt).closingBrackets)) := by
    simp [Bool.and_eq_true, Bool.or_eq_true, bne_iff_ne]
  refine ⟨⟨?_, ?_⟩, ?_, fun fuel cs st adv h => scanLoop_semicolon_stops fuel cs st adv h⟩
  · intro h
    by_cases hc : ((scanStatement stmt).hasJsonFunction &&
        ((scanStatement stmt).hasInvalidToken ||
          ((scanStatement stmt).openingBrackets != (scanStatement stmt).closingBrackets)))
          = true
    · exact hbool.mp hc
    · exfalso
      simp only [checkValidJsonStatement] at h
      rw [if_neg hc] at h
      cases h
  · intro h
    simp only [checkValidJsonStatement]
    rw [if_pos (hbool.mpr h)]
  · intro h
    simp only [checkValidJsonStatement]
    rw [if_neg (fun hc => h (hbool.mp hc))]

theorem takeWhile_length_le (p : Char → Bool) (l : List Char) :
    (l.takeWhile p).length ≤ l.length :=
  List.IsPrefix.length_le (List.takeWhile_prefix p)

theorem prefixGroup_length (cs r : List Char) (h : prefixGroup cs = some r) :
    r.length ≤ cs.length := by
  unfold prefixGroup at h
  split at h
  · cases h
  · split at h
    · injection h with h'
      subst h'
      rename_i heq
      have h1 := congrArg List.length heq
      have h2 := takeWhile_length_le isAsciiLetter cs
      simp [List.length_drop] at h1
      omega
    · cases h

theorem matchRootJson_length (cs r : List Char) (h : matchRootJson cs = some r) :
    r.length + 4 = cs.length := by
  unfold matchRootJson at h
  split at h
  · split at h
    · split at h
      · split at h
        · injection h with h'
          subst h'
          simp
        · cases h
      · cases h
    · cases h
  · cases h

theorem suffixGroup_length (cs r : List Char) (h : suffixGroup cs = some r) :
    r.length ≤ cs.length := by
  unfold suffixGroup at h
  split at h
  · split at h
    · cases h
    · injection h with h'
      subst h'
      simp [List.length_drop]
      omega
  · cases h

theorem nameEnds_length (body r : List Char) (hr : r ∈ nameEnds body) :
    r.length + 4 ≤ body.length := by
  unfold nameEnds at hr
  rw [List.mem_flatMap] at hr
  obtain ⟨pr, hprMem, hr⟩ := hr
  rw [List.mem_filterMap] at hprMem
  obtain ⟨o, hoMem, hoEq⟩ := hprMem
  have hpr : pr.length ≤ body.length := by
    simp only [List.mem_cons, List.not_mem_nil, or_false] at hoMem
    rcases hoMem with h | h | h
    · rw [h] at hoEq
      cases h1 : prefixGroup body with
      | none => rw [h1] at hoEq; cases hoEq
      | some mid =>
          rw [h1] at hoEq
          simp only [Option.some_bind, id] at hoEq
          have := prefixGroup_length body mid h1
          have := prefixGroup_length mid pr hoEq
          omega
    · rw [h] at hoEq
      simp only [id] at hoEq
      exact prefixGroup_length body pr hoEq
    · rw [h] at hoEq
      simp only [id] at hoEq
      injection hoEq with h'
      rw [h']
  revert hr
  cases hroot : matchRootJson pr with
  | none => intro hr; simp at hr
  | some rest =>
      intro hr
      have hrest : rest.length + 4 = pr.length := matchRootJson_length pr rest hroot
      rw [List.mem_flatMap] at hr
      obtain ⟨s, hsMem, hr⟩ := hr
      have hs : s.length ≤ rest.length := by
        split at hsMem
        · split at hsMem
          · simp only [List.mem_cons, List.not_mem_nil, or_false] at hsMem
            rcases hsMem with h | h
            · rw [h]
              simp
            · rw [h]
          · simp only [List.mem_cons, List.not_mem_nil, or_false] at hsMem
            rw [hsMem]
        · simp only [List.mem_cons, List.not_mem_nil, or_false] at hsMem
          rw [hsMem]
      rw [List.mem_filterMap] at hr
      obtain ⟨o2, hoMem2, hoEq2⟩ := hr
      have hfin : r.length ≤ s.length := by
        simp only [List.mem_cons, List.not_mem_nil, or_false] at hoMem2
        rcases hoMem2 with h | h | h
        · rw [h] at hoEq2
          cases h1 : suffixGroup s with
          | none => rw [h1] at hoEq2; cases hoEq2
          | some mid =>
              rw [h1] at hoEq2
              simp only [Option.some_bind, id] at hoEq2
              have := suffixGroup_length s mid h1
              have := suffixGroup_length mid r hoEq2
              omega
        · rw [h] at hoEq2
          simp only [id] at hoEq2
          exact suffixGroup_length s r hoEq2
        · rw [h] at hoEq2
          simp only [id] at hoEq2
          injection hoEq2 with h'
          rw [h']
      omega

theorem matchJsonFunction_pos (cs : List Char) (adv : Nat)
    (h : matchJsonFunction cs = some adv) : 1 ≤ adv := by
  simp only [matchJsonFunction] at h
  split at h
  · rename_i r hfind
    injection h with h'
    have hmem := List.mem_of_find?_eq_some hfind
    have := nameEnds_length _ r hmem
    omega
  · cases h

theorem opLen_pos (cs : List Char) (n : Nat) (h : opLen cs = some n) : 1 ≤ n := by
  unfold opLen at h
  split at h
  · cases h
  · repeat' split at h
    all_goals try exact Option.noConfusion h
    all_goals injection h with h'
    all_goals omega

theorem matchJsonOperator_pos (cs : List Char) (adv : Nat)
    (h : matchJsonOperator cs = some adv) : 1 ≤ adv := by
  simp only [matchJsonOperator] at h
  cases ho : opLen (cs.drop ((cs.takeWhile isJsWs).length)) with
  | none => rw [ho] at h; cases h
  | some n =>
      rw [ho] at h
      simp only [Option.map_some'] at h
      injection h with h'
      have := opLen_pos _ n ho
      omega

theorem punctAlt_pos (cs : List Char) (tok : String) (n : Nat)
    (h : punctAlt cs = some (tok, n)) : 1 ≤ n := by
  unfold punctAlt at h
  split at h
  · cases h
  · split at h
    · injection h with h'
      have hn : n = 1 := (congrArg Prod.snd h').symm
      omega
    · cases h

theorem wordOrPunct_pos (cs : List Char) (tok : String) (n : Nat)
    (h : wordOrPunct cs = some (tok, n)) : 1 ≤ n := by
  unfold wordOrPunct at h
  split at h
  · injection h with h'
    have hn : n = (cs.takeWhile (fun c => isWordChar c || isJsWs c)).length :=
      (congrArg Prod.snd h').symm
    rename_i hlen
    omega
  · exact punctAlt_pos cs tok n h

theorem groupMatch_pos (cs : List Char) (tok : String) (n : Nat)
    (h : groupMatch cs = some (tok, n)) : 1 ≤ n := by
  cases cs with
  | nil => cases h
  | cons c rest =>
      simp only [groupMatch] at h
      split at h
      · cases hs : scanQuoted c rest 0 none with
        | some m =>
            rw [hs] at h
            injection h with h'
            have hn : n = m + 1 := (congrArg Prod.snd h').symm
            omega
        | none =>
            rw [hs] at h
            exact wordOrPunct_pos _ tok n h
      · exact wordOrPunct_pos _ tok n h

theorem matchTokenAt_pos (cs : List Char) :
    ∀ (w : Nat) (tok : String) (adv : Nat),
      matchTokenAt cs w = some (tok, adv) → 1 ≤ adv
  | 0, tok, adv, h => by
      unfold matchTokenAt at h
      cases hg : groupMatch cs with
      | none => rw [hg] at h; cases h
      | some p =>
          rw [hg] at h
          injection h with h'
          have hadv : adv = p.2 := (congrArg Prod.snd h').symm
          have := groupMatch_pos cs p.1 p.2 (by rw [hg])
          omega
  | w + 1, tok, adv, h => by
      unfold matchTokenAt at h
      cases hg : groupMatch (cs.drop (w + 1)) with
      | none =>
          rw [hg] at h
          exact matchTokenAt_pos cs w tok adv h
      | some p =>
          rw [hg] at h
          injection h with h'
          have hadv : adv = w + 1 + p.2 := (congrArg Prod.snd h').symm
          omega

theorem matchToken_pos (cs : List Char) (tok : String) (adv : Nat)
    (h : matchToken cs = some (tok, adv)) : 1 ≤ adv :=
  matchTokenAt_pos cs _ tok adv h

/-- The scan loop's fuel is irrelevant as soon as it exceeds the number of remaining
characters: every match consumes at least one character, so `scanStatement`'s
`length + 1` fuel behaves as the unbounded source loop. -/
theorem scanLoop_fuel_irrelevant :
    ∀ (n : Nat) (cs : List Char) (st : ScanState) (f g : Nat),
      cs.length ≤ n → cs.length < f → cs.length < g →
      scanLoop f cs st = scanLoop g cs st := by
  intro n
  induction n with
  | zero =>
      intro cs st f g hn hf hg
      have hcs : cs = [] := List.length_eq_zero.mp (Nat.le_zero.mp hn)
      subst hcs
      obtain ⟨f', rfl⟩ : ∃ f', f = f' + 1 := ⟨f - 1, by omega⟩
      obtain ⟨g', rfl⟩ : ∃ g', g = g' + 1 := ⟨g - 1, by omega⟩
      rfl
  | succ n ih =>
      intro cs st f g hn hf hg
      obtain ⟨f', rfl⟩ : ∃ f', f = f' + 1 := ⟨f - 1, by omega⟩
      obtain ⟨g', rfl⟩ : ∃ g', g = g' + 1 := ⟨g - 1, by omega⟩
      cases cs with
      | nil => rfl
      | cons c t =>
          have hlen : (c :: t).length = t.length + 1 := rfl
          cases hj : matchJsonFunction (c :: t) with
          | some adv =>
              have hpos := matchJsonFunction_pos _ _ hj
              simp only [scanLoop, hj]
              exact ih _ _ _ _ (by simp; omega) (by simp; omega) (by simp; omega)
          | none =>
              cases ho : matchJsonOperator (c :: t) with
              | some adv =>
                  have hpos := matchJsonOperator_pos _ _ ho
                  simp only [scanLoop, hj, ho]
                  exact ih _ _ _ _ (by simp; omega) (by simp; omega) (by simp; omega)
              | none =>
                  cases ht : matchToken (c :: t) with
                  | some p =>
                      obtain ⟨tok, adv⟩ := p
                      have hpos := matchToken_pos _ tok adv ht
                      simp only [scanLoop, hj, ho, ht]
                      by_cases h1 : tok = "("
                      · simp only [h1, if_pos rfl]
                        exact ih _ _ _ _ (by simp; omega) (by simp; omega) (by simp; omega)
                      · rw [if_neg h1, if_neg h1]
                        by_cases h2 : tok = ")"
                        · rw [if_pos h2, if_pos h2]
                          exact ih _ _ _ _ (by simp; omega) (by simp; omega) (by simp; omega)
                        · rw [if_neg h2, if_neg h2]
                          by_cases h3 : tok = ";"
                          · rw [if_pos h3, if_pos h3]
                          · rw [if_neg h3, if_neg h3]
                            exact ih _ _ _ _ (by simp; omega) (by simp; omega) (by simp; omega)
                  | none => simp only [scanLoop, hj, ho, ht]

/-- C4 witness: a JSON function call with a stray semicolon raises the parse failure
naming the text; a plain dotted path returns false; and a semicolon token stops a scan
step immediately with the invalid flag set. -/
theorem checkValidJsonStatement_classification_witness :
    checkValidJsonStatement "json_extract(a;b)"
        = Except.error ("Invalid json statement: " ++ "json_extract(a;b)") ∧
    checkValidJsonStatement "a.b" = Except.ok false ∧
    scanLoop 1 [';'] ⟨false, 0, 0, false⟩ = ⟨false, 0, 0, true⟩ := by
  refine ⟨?_, ?_, ?_⟩
  · exact (checkValidJsonStatement_classification "json_extract(a;b)").1.mpr
      ⟨by decide, Or.inl (by decide)⟩
  · have h := (checkValidJsonStatement_classification "a.b").2.1 (by decide)
    rw [h]
    rfl
  · exact (checkValidJsonStatement_classification "a.b").2.2 0 [';'] ⟨false, 0, 0, false⟩ 1
      (by decide)

/-! ## createTableQuery -/

/-- Index of the first occurrence of `pat` in `s`. -/
def findFirstIdx (pat s : String) : Option Nat :=
  (List.range (s.data.length + 1)).find? (fun i => pat.data.isPrefixOf (s.data.drop i))

/-- JS `s.replace(pat, '')` for a literal, non-global pattern: remove the first
occurrence. -/
def jsRemoveFirst (s pat : String) : String :=
  match findFirstIdx pat s with
  | some i => String.mk (s.data.take i ++ s.data.drop (i + pat.data.length))
  | none => s

/-- Index of the last occurrence of `pat` in `s`. -/
def findLastIdx (pat s : String) : Option Nat :=
  ((List.range (s.data.length + 1)).filter
    (fun i => pat.data.isPrefixOf (s.data.drop i))).getLast?

/-- JS `dataType.match(/^(.+) (REFERENCES.*)$/)`: the greedy `(.+)` makes the split
happen at the last occurrence of " REFERENCES", the prefix must be non-empty, and `.`
matches no newline, so a newline in the type text makes the anchored match fail. -/
def matchTrailingReferences (s : String) : Option (String × String) :=
  if s.data.contains '\n' then none
  else
    match findLastIdx " REFERENCES" s with
    | some i =>
        if i = 0 then none
        else some (String.mk (s.data.take i), String.mk (s.data.drop (i + 1)))
    | none => none

/-- One column of the createTable walk: the inline fragment, whether the column was
recorded as a primary key, and the foreign-key clause remainder cut out of the type text.
`none` models the crash when the type contains REFERENCES but the regex does not match
(the source then reads properties of `null`). -/
def processAttribute (attr dataType : String) : Option (String × Bool × Option String) :=
  if jsIncludes dataType "PRIMARY KEY" then
    if jsIncludes dataType "REFERENCES" then
      match matchTrailingReferences dataType with
      | some m =>
          some (quoteIdentifier attr ++ " " ++ jsRemoveFirst m.1 "PRIMARY KEY",
            true, some m.2)
      | none => none
    else
      some (quoteIdentifier attr ++ " " ++ jsRemoveFirst dataType "PRIMARY KEY",
        true, none)
  else if jsIncludes dataType "REFERENCES" then
    match matchTrailingReferences dataType with
    | some m => some (quoteIdentifier attr ++ " " ++ m.1, false, some m.2)
    | none => none
  else some (quoteIdentifier attr ++ " " ++ dataType, false, none)

/-- The column walk of `createTableQuery`: inline fragments, primary-key names and
foreign-key clauses keyed by column, each in encounter order. -/
def createTableWalk :
    List (String × String) → Option (List String × List String × List (String × String))
  | [] => some ([], [], [])
  | (attr, dataType) :: rest =>
      match processAttribute attr dataType with
      | none => none
      | some (frag, isPk, fk) =>
          match createTableWalk rest with
          | none => none
          | some (attrStr, pks, fks) =>
              some (frag :: attrStr,
                (if isPk then [attr] else []) ++ pks,
                (match fk with | some f => [(attr, f)] | none => []) ++ fks)

/-- One entry of `options.uniqueKeys`: the object key when it is a string (a numeric
array index is modelled as `none`), the `customIndex` marker, and the field list. -/
structure UniqueKeySpec where
  indexName : Option String
  customIndex : Bool
  fields : List String
deriving DecidableEq

/-- The `createTableQuery` options after the source's defaulting (`engine` defaults to
InnoDB; absent or JS-falsy options are `none`). -/
structure CreateTableOptions where
  engine : String := "InnoDB"
  comment : Option String := none
  charset : Option String := none
  collate : Option String := none
  rowFormat : Option String := none
  initialAutoIncrement : Option String := none
  uniqueKeys : List UniqueKeySpec := []
deriving DecidableEq

/-- One UNIQUE clause: user-named when the object key is a string, otherwise named by the
`uniq_<table>_<fields..>` pattern. -/
def uniqueKeyClause (tableName : String) (uk : UniqueKeySpec) : String :=
  "UNIQUE "
    ++ quoteIdentifier (match uk.indexName with
        | some n => n
        | none => "uniq_" ++ tableName ++ "_" ++ jsJoin "_" uk.fields)
    ++ " (" ++ jsJoin ", " (uk.fields.map quoteIdentifier) ++ ")"

/-- The UNIQUE clauses appended for entries carrying `customIndex`. -/
def uniqueKeyClauses (tableName : String) (uniqueKeys : List UniqueKeySpec) : List String :=
  (uniqueKeys.filter (fun uk => uk.customIndex)).map (uniqueKeyClause tableName)

/-- The comma-joined quoted primary-key column list (`pkString` in the source). -/
def pkClauseString (pks : List String) : String := jsJoin ", " (pks.map quoteIdentifier)

/-- One trailing FOREIGN KEY clause. -/
def fkClause (p : String × String) : String :=
  "FOREIGN KEY (" ++ quoteIdentifier p.1 ++ ") " ++ p.2

/-- The parenthesised clause list of `createTableQuery`: inline fragments, then the
custom unique keys, then the PRIMARY KEY clause when any primary key was recorded, then
one FOREIGN KEY clause per recorded reference in encounter order. -/
def createTableParts (tableName : String) (attributes : List (String × String))
    (opts : CreateTableOptions) : Option (List String) :=
  match createTableWalk attributes with
  | none => none
  | some (attrStr, pks, fks) =>
      some (attrStr ++ uniqueKeyClauses tableName opts.uniqueKeys
        ++ (if (pkClauseString pks).length > 0 then
              ["PRIMARY KEY (" ++ pkClauseString pks ++ ")"]
            else [])
        ++ fks.map fkClause)

/-- The attributes text exactly as the source builds it: `attrStr.join(', ')` followed by
`+=` appends of `, <clause>` for each unique key, the primary-key clause and each
foreign-key clause. -/
def createTableAttributesText (tableName : String) (attributes : List (String × String))
    (opts : CreateTableOptions) : Option String :=
  match createTableWalk attributes with
  | none => none
  | some (attrStr, pks, fks) =>
      let base := jsJoin ", " attrStr
      let withUniques := (uniqueKeyClauses tableName opts.uniqueKeys).foldl
        (fun acc clause => acc ++ ", " ++ clause) base
      let withPk :=
        if (pkClauseString pks).length > 0 then
          withUniques ++ ", PRIMARY KEY (" ++ pkClauseString pks ++ ")"
        else withUniques
      some (fks.foldl (fun acc p => acc ++ ", " ++ fkClause p) withPk)

/-- JS `String.prototype.trim` on ASCII text. -/
def jsTrim (s : String) : String :=
  String.mk (((s.data.dropWhile isJsWs).reverse.dropWhile isJsWs).reverse)

/-- Generator `createTableQuery`: the full statement text (or the crash `none`, see
`processAttribute`). -/
def createTableQuery (tableName : String) (attributes : List (String × String))
    (opts : CreateTableOptions) : Option String :=
  match createTableAttributesText tableName attributes opts with
  | none => none
  | some attrs =>
      some (jsTrim ("CREATE TABLE IF NOT EXISTS " ++ quoteTable tableName ++ " (" ++ attrs
          ++ ") ENGINE=" ++ opts.engine
          ++ (match opts.comment with
              | some cm => " COMMENT " ++ escapeLiteral cm
              | none => "")
          ++ (match opts.charset with
              | some ch => " DEFAULT CHARSET=" ++ ch
              | none => "")
          ++ (match opts.collate with
              | some co => " COLLATE " ++ co
              | none => "")
          ++ (match opts.initialAutoIncrement with
              | some ia => " AUTO_INCREMENT=" ++ ia
              | none => "")
          ++ (match opts.rowFormat with
              | some rf => " ROW_FORMAT=" ++ rf
              | none => ""))
        ++ ";")

/-! ### Occurrence counting -/

theorem occCount_nil (pat : List Char) (hne : pat ≠ []) :
    (occPositions pat []).length = 0 := by
  cases pat with
  | nil => exact absurd rfl hne
  | cons p ps => simp [occPositions, List.isPrefixOf]

theorem occCount_cons (pat : List Char) (c : Char) (s : List Char) :
    (occPositions pat (c :: s)).length
      = (if pat.isPrefixOf (c :: s) then 1 else 0) + (occPositions pat s).length := by
  unfold occPositions
  have h1 : (c :: s).length + 1 = (s.length + 1) + 1 := rfl
  have h2 : ((fun i => pat.isPrefixOf ((c :: s).drop i)) ∘ Nat.succ)
      = fun i => pat.isPrefixOf (s.drop i) := by
    funext i
    simp [Function.comp, List.drop_succ_cons]
  rw [h1, List.range_succ_eq_map, List.filter_cons]
  simp only [List.drop_zero, List.filter_map, h2]
  split <;> simp [Nat.add_comm]

theorem prefix_stops_at_barrier (pat m b : List Char) (x : Char)
    (hx : x ∉ pat) (h : pat <+: m ++ x :: b) : pat <+: m := by
  rcases le_or_lt pat.length m.length with hle | hlt
  · have h1 : pat = (m ++ x :: b).take pat.length := List.prefix_iff_eq_take.mp h
    rw [List.take_append_of_le_length hle] at h1
    rw [h1]
    exact List.take_prefix _ m
  · exfalso
    apply hx
    obtain ⟨t, ht⟩ := h
    have h1 : (pat ++ t)[m.length]? = (m ++ x :: b)[m.length]? := by rw [ht]
    rw [List.getElem?_append_left hlt] at h1
    rw [List.getElem?_append_right (Nat.le_refl _)] at h1
    simp only [Nat.sub_self, List.getElem?_cons_zero] at h1
    have h2 := List.getElem?_eq_getElem hlt
    rw [h2] at h1
    injection h1 with h3
    rw [← h3]
    exact List.getElem_mem hlt

theorem occCount_append_barrier (pat : List Char) (hne : pat ≠ []) (x : Char)
    (hx : x ∉ pat) :
    ∀ a b : List Char, (occPositions pat (a ++ x :: b)).length
      = (occPositions pat a).length + (occPositions pat b).length
  | [], b => by
      rw [List.nil_append, occCount_cons, occCount_nil pat hne]
      have hpre : pat.isPrefixOf (x :: b) = false := by
        cases pat with
        | nil => exact absurd rfl hne
        | cons p ps =>
            have hp : ¬ p = x := by
              intro hpx
              exact hx (hpx ▸ List.mem_cons_self p ps)
            simp [List.isPrefixOf, beq_eq_false_iff_ne.mpr hp]
      rw [hpre]
      simp
  | c :: a', b => by
      rw [List.cons_append, occCount_cons, occCount_cons]
      have hind : pat.isPrefixOf (c :: (a' ++ x :: b)) = pat.isPrefixOf (c :: a') := by
        cases h1 : pat.isPrefixOf (c :: a') with
        | true =>
            have := List.isPrefixOf_iff_prefix.mp h1
            exact List.isPrefixOf_iff_prefix.mpr
              (this.trans ⟨x :: b, by simp⟩)
        | false =>
            cases h2 : pat.isPrefixOf (c :: (a' ++ x :: b)) with
            | false => rfl
            | true =>
                exfalso
                have hp := List.isPrefixOf_iff_prefix.mp h2
                have : pat <+: c :: a' :=
                  prefix_stops_at_barrier pat (c :: a') b x hx (by simpa using hp)
                rw [List.isPrefixOf_iff_prefix.mpr this] at h1
                cases h1
      rw [hind, occCount_append_barrier pat hne x hx a' b]
      omega

theorem occCount_cons_of_head_ne (pat : List Char) (p0 : Char) (hp : pat.head? = some p0)
    (x : Char) (hx : p0 ≠ x) (b : List Char) :
    (occPositions pat (x :: b)).length = (occPositions pat b).length := by
  rw [occCount_cons]
  have hpre : pat.isPrefixOf (x :: b) = false := by
    cases pat with
    | nil => cases hp
    | cons q qs =>
        injection hp with hq
        subst hq
        simp [List.isPrefixOf, beq_eq_false_iff_ne.mpr hx]
  rw [hpre]
  simp

/-- An inline column fragment `quoteIdentifier c ++ " " ++ rest` contains a keyword only
where `c` or `rest` does: the backticks of the quoted identifier act as barriers, and the
keyword starts with neither a backtick nor a space. -/
theorem fragment_clean (c rest pat : String) (p0 : Char)
    (hp : pat.data.head? = some p0) (hne : pat.data ≠ [])
    (hbt : '`' ∉ pat.data) (hp0bt : p0 ≠ '`') (hp0sp : p0 ≠ ' ')
    (hc : countSubstr c pat = 0) (hrest : countSubstr rest pat = 0) :
    countSubstr (quoteIdentifier c ++ " " ++ rest) pat = 0 := by
  have hdata : (quoteIdentifier c ++ " " ++ rest).data
      = ('`' :: c.data) ++ '`' :: (' ' :: rest.data) := by
    simp [quoteIdentifier, String.data_append]
  unfold countSubstr at hc hrest ⊢
  rw [hdata, occCount_append_barrier pat.data hne '`' hbt,
    occCount_cons_of_head_ne pat.data p0 hp '`' hp0bt,
    occCount_cons_of_head_ne pat.data p0 hp ' ' hp0sp]
  omega

/-! ### createTable walk lemmas -/

theorem processAttribute_head (attr dataType frag : String) (isPk : Bool)
    (fk : Option String) (h : processAttribute attr dataType = some (frag, isPk, fk)) :
    frag.data.head? = some '`' := by
  have hq : ∀ x : String, (quoteIdentifier attr ++ " " ++ x).data.head? = some '`' := by
    intro x
    simp [quoteIdentifier, String.data_append]
  unfold processAttribute at h
  repeat' split at h
  all_goals try exact Option.noConfusion h
  all_goals
    injection h with h'
    rw [show frag = _ from (congrArg (fun t => t.1) h').symm]
    exact hq _

theorem createTableWalk_mem (c ty : String) (frag : String) (isPk : Bool)
    (fk : Option String)
    (hproc : processAttribute c ty = some (frag, isPk, fk)) :
    ∀ (attributes : List (String × String)) (A P : List String)
      (F : List (String × String)),
      createTableWalk attributes = some (A, P, F) → (c, ty) ∈ attributes →
      frag ∈ A ∧ (isPk = true → c ∈ P) ∧ (∀ f, fk = some f → (c, f) ∈ F)
  | [], A, P, F, _, hmem => absurd hmem (List.not_mem_nil _)
  | (a0, d0) :: rest, A, P, F, hwalk, hmem => by
      simp only [createTableWalk] at hwalk
      cases hp0 : processAttribute a0 d0 with
      | none => rw [hp0] at hwalk; cases hwalk
      | some trip =>
          rw [hp0] at hwalk
          cases hw0 : createTableWalk rest with
          | none => rw [hw0] at hwalk; cases hwalk
          | some res =>
              rw [hw0] at hwalk
              obtain ⟨A', P', F'⟩ := res
              obtain ⟨frag0, isPk0, fk0⟩ := trip
              injection hwalk with hw
              rw [Prod.mk.injEq, Prod.mk.injEq] at hw
              obtain ⟨hA, hP, hF⟩ := hw
              subst hA
              subst hP
              subst hF
              rcases List.mem_cons.mp hmem with heq | hmem'
              · have hc : c = a0 := (congrArg Prod.fst heq)
                have hd : ty = d0 := (congrArg Prod.snd heq)
                subst hc hd
                rw [hproc] at hp0
                injection hp0 with hp0'
                rw [Prod.mk.injEq, Prod.mk.injEq] at hp0'
                obtain ⟨h1, h2, h3⟩ := hp0'
                subst h1
                subst h2
                subst h3
                refine ⟨List.mem_cons_self _ _, ?_, ?_⟩
                · intro hpk
                  rw [hpk]
                  simp
                · intro f hf
                  rw [hf]
                  simp
              · obtain ⟨m1, m2, m3⟩ :=
                  createTableWalk_mem c ty frag isPk fk hproc rest A' P' F' hw0 hmem'
                refine ⟨List.mem_cons_of_mem _ m1, ?_, ?_⟩
                · intro hpk
                  exact List.mem_append_right _ (m2 hpk)
                · intro f hf
                  exact List.mem_append_right _ (m3 f hf)

theorem createTableWalk_fk_keys :
    ∀ (attributes : List (String × String)) (A P : List String)
      (F : List (String × String)),
      createTableWalk attributes = some (A, P, F) →
      List.Sublist (F.map Prod.fst) (attributes.map Prod.fst)
  | [], A, P, F, hwalk => by
      injection hwalk with hw
      have hF : F = [] := (congrArg (fun t => t.2.2) hw).symm
      subst hF
      simp
  | (a0, d0) :: rest, A, P, F, hwalk => by
      simp only [createTableWalk] at hwalk
      cases hp0 : processAttribute a0 d0 with
      | none => rw [hp0] at hwalk; cases hwalk
      | some trip =>
          rw [hp0] at hwalk
          cases hw0 : createTableWalk rest with
          | none => rw [hw0] at hwalk; cases hwalk
          | some res =>
              rw [hw0] at hwalk
              obtain ⟨A', P', F'⟩ := res
              obtain ⟨frag0, isPk0, fk0⟩ := trip
              injection hwalk with hw
              rw [Prod.mk.injEq, Prod.mk.injEq] at hw
              obtain ⟨hA, hP, hF⟩ := hw
              subst hA
              subst hP
              subst hF
              have ih := createTableWalk_fk_keys rest A' P' F' hw0
              cases fk0 with
              | some f =>
                  simpa using List.Sublist.cons₂ a0 ih
              | none =>
                  simpa using List.Sublist.cons a0 ih

theorem createTableWalk_frag_heads :
    ∀ (attributes : List (String × String)) (A P : List String)
      (F : List (String × String)),
      createTableWalk attributes = some (A, P, F) →
      ∀ frag ∈ A, frag.data.head? = some '`'
  | [], A, P, F, hwalk => by
      injection hwalk with hw
      have hA : A = [] := (congrArg (fun t => t.1) hw).symm
      subst hA
      intro frag hf
      cases hf
  | (a0, d0) :: rest, A, P, F, hwalk => by
      simp only [createTableWalk] at hwalk
      cases hp0 : processAttribute a0 d0 with
      | none => rw [hp0] at hwalk; cases hwalk
      | some trip =>
          rw [hp0] at hwalk
          cases hw0 : createTableWalk rest with
          | none => rw [hw0] at hwalk; cases hwalk
          | some res =>
              rw [hw0] at hwalk
              obtain ⟨A', P', F'⟩ := res
              obtain ⟨frag0, isPk0, fk0⟩ := trip
              injection hwalk with hw
              rw [Prod.mk.injEq, Prod.mk.injEq] at hw
              obtain ⟨hA, hP, hF⟩ := hw
              subst hA
              subst hP
              subst hF
              intro frag hf
              rcases List.mem_cons.mp hf with rfl | hf'
              · exact processAttribute_head a0 d0 frag isPk0 fk0 hp0
              · exact createTableWalk_frag_heads rest A' P' F' hw0 frag hf'

theorem fk_count_one (attributes : List (String × String)) (A P : List String)
    (F : List (String × String)) (hwalk : createTableWalk attributes = some (A, P, F))
    (hnodup : (attributes.map Prod.fst).Nodup) (c : String) (f : String)
    (hmem : (c, f) ∈ F) :
    F.countP (fun p => p.1 == c) = 1 := by
  have hsub := createTableWalk_fk_keys attributes A P F hwalk
  have hnd : (F.map Prod.fst).Nodup := hnodup.sublist hsub
  have hkey : c ∈ F.map Prod.fst := List.mem_map.mpr ⟨(c, f), hmem, rfl⟩
  have h1 : (F.map Prod.fst).count c ≤ 1 := List.nodup_iff_count_le_one.mp hnd c
  have h2 : 0 < (F.map Prod.fst).count c := List.count_pos_iff.mpr hkey
  have h3 : (F.map Prod.fst).count c = F.countP (fun p => p.1 == c) := by
    rw [List.count, List.countP_map]
    rfl
  omega

/-! ### Comma-join glue -/

theorem foldl_comma_factor (l : List String) :
    ∀ p q : String, l.foldl (fun acc cl => acc ++ ", " ++ cl) (p ++ q)
      = p ++ l.foldl (fun acc cl => acc ++ ", " ++ cl) q := by
  induction l with
  | nil => intro p q; rfl
  | cons x xs ih =>
      intro p q
      show xs.foldl _ (p ++ q ++ ", " ++ x) = p ++ xs.foldl _ (q ++ ", " ++ x)
      rw [String.append_assoc (p ++ q), String.append_assoc p q,
        ← String.append_assoc q]
      exact ih p (q ++ ", " ++ x)

theorem jsJoin_comma_foldl (l : List String) :
    ∀ a : String, jsJoin ", " (a :: l) = l.foldl (fun acc cl => acc ++ ", " ++ cl) a := by
  induction l with
  | nil => intro a; rfl
  | cons x xs ih =>
      intro a
      show a ++ ", " ++ jsJoin ", " (x :: xs) = xs.foldl _ (a ++ ", " ++ x)
      rw [ih x, foldl_comma_factor xs (a ++ ", ") x, String.append_assoc a]

theorem jsJoin_comma_append (a : String) (A B : List String) :
    jsJoin ", " ((a :: A) ++ B)
      = B.foldl (fun acc cl => acc ++ ", " ++ cl) (jsJoin ", " (a :: A)) := by
  rw [List.cons_append, jsJoin_comma_foldl, jsJoin_comma_foldl, List.foldl_append]

theorem pkClauseString_pos (p : String) (l : List String) :
    0 < (pkClauseString (p :: l)).length := by
  unfold pkClauseString quoteIdentifier
  have h1 : (0 : Nat) < "`".length := by decide
  cases l with
  | nil =>
      show 0 < ("`" ++ p ++ "`").length
      simp only [String.length_append]
      omega
  | cons q r =>
      show 0 < ("`" ++ p ++ "`" ++ ", " ++ _).length
      simp only [String.length_append]
      omega

/-- Clause classification: does a clause string start with the given text. -/
def strStartsWith (s pre : String) : Bool := pre.data.isPrefixOf s.data

theorem head_data_append (a b : String) (x : Char) (t : List Char)
    (h : a.data = x :: t) : (a ++ b).data.head? = some x := by
  rw [String.data_append, h]
  rfl

theorem strStartsWith_false_of_head (s pre : String) (x p0 : Char)
    (hs : s.data.head? = some x) (hp : pre.data.head? = some p0) (hne : p0 ≠ x) :
    strStartsWith s pre = false := by
  obtain ⟨t, ht⟩ : ∃ t, s.data = x :: t := by
    cases h1 : s.data with
    | nil => rw [h1] at hs; cases hs
    | cons cc tt =>
        rw [h1] at hs
        injection hs with h2
        exact ⟨tt, by rw [h2]⟩
  obtain ⟨q, hq⟩ : ∃ q, pre.data = p0 :: q := by
    cases h1 : pre.data with
    | nil => rw [h1] at hp; cases hp
    | cons cc tt =>
        rw [h1] at hp
        injection hp with h2
        exact ⟨tt, by rw [h2]⟩
  unfold strStartsWith
  rw [ht, hq]
  simp [List.isPrefixOf, beq_eq_false_iff_ne.mpr hne]

theorem strStartsWith_append_self (pre rest : String) :
    strStartsWith (pre ++ rest) pre = true := by
  unfold strStartsWith
  rw [String.data_append]
  exact List.isPrefixOf_iff_prefix.mpr (List.prefix_append _ _)

theorem uniqueKeyClause_head (tableName : String) (uk : UniqueKeySpec) :
    (uniqueKeyClause tableName uk).data.head? = some 'U' := by
  have hassoc : uniqueKeyClause tableName uk
      = "UNIQUE " ++ (quoteIdentifier (match uk.indexName with
          | some n => n
          | none => "uniq_" ++ tableName ++ "_" ++ jsJoin "_" uk.fields)
        ++ (" (" ++ (jsJoin ", " (uk.fields.map quoteIdentifier) ++ ")"))) := by
    simp [uniqueKeyClause, String.append_assoc]
  rw [hassoc]
  exact head_data_append _ _ 'U' ("NIQUE ").data (by decide)

theorem fkClause_head (p : String × String) :
    (fkClause p).data.head? = some 'F' := by
  have hassoc : fkClause p
      = "FOREIGN KEY (" ++ (quoteIdentifier p.1 ++ (") " ++ p.2)) := by
    simp [fkClause, String.append_assoc]
  rw [hassoc]
  exact head_data_append _ _ 'F' ("OREIGN KEY (").data (by decide)

theorem append_comma_pk (w p : String) :
    w ++ ", " ++ ("PRIMARY KEY (" ++ p ++ ")")
      = w ++ ", PRIMARY KEY (" ++ p ++ ")" := by
  have hlit : (", " : String) ++ "PRIMARY KEY (" = ", PRIMARY KEY (" := rfl
  rw [← hlit]
  simp only [String.append_assoc]

/-- C2: for a column map holding a column whose type text carries both PRIMARY KEY and
REFERENCES (with the implicit well-formedness the claim assumes: distinct column names,
the REFERENCES regex matches, a single occurrence of each keyword — expressed as zero
residual occurrences after the cut), the generated clause list contains exactly one
trailing `PRIMARY KEY (...)` clause and it lists that column, exactly one trailing
FOREIGN KEY clause keyed by that column, the column's inline fragment carries neither
keyword, the trailing clauses come in the order unique keys / PRIMARY KEY / FOREIGN KEYs
in encounter order, and the source-built attributes text is the comma-join of exactly
that clause list. -/
theorem createTable_pk_and_reference_clauses
    (tableName : String) (attributes : List (String × String)) (opts : CreateTableOptions)
    (c ty m1 m2 : String) (attrStr pks : List String) (fks : List (String × String))
    (hmem : (c, ty) ∈ attributes)
    (hnodup : (attributes.map Prod.fst).Nodup)
    (hpk : jsIncludes ty "PRIMARY KEY" = true)
    (href : jsIncludes ty "REFERENCES" = true)
    (hm : matchTrailingReferences ty = some (m1, m2))
    (hwalk : createTableWalk attributes = some (attrStr, pks, fks))
    (hc1 : countSubstr c "PRIMARY KEY" = 0)
    (hc2 : countSubstr c "REFERENCES" = 0)
    (hr1 : countSubstr (jsRemoveFirst m1 "PRIMARY KEY") "PRIMARY KEY" = 0)
    (hr2 : countSubstr (jsRemoveFirst m1 "PRIMARY KEY") "REFERENCES" = 0) :
    ∃ parts : List String,
      createTableParts tableName attributes opts = some parts ∧
      parts = attrStr ++ uniqueKeyClauses tableName opts.uniqueKeys
        ++ ["PRIMARY KEY (" ++ pkClauseString pks ++ ")"] ++ fks.map fkClause ∧
      parts.countP (fun s => strStartsWith s "PRIMARY KEY (") = 1 ∧
      c ∈ pks ∧
      fks.countP (fun p => p.1 == c) = 1 ∧
      (c, m2) ∈ fks ∧
      (quoteIdentifier c ++ " " ++ jsRemoveFirst m1 "PRIMARY KEY") ∈ attrStr ∧
      countSubstr (quoteIdentifier c ++ " " ++ jsRemoveFirst m1 "PRIMARY KEY")
        "PRIMARY KEY" = 0 ∧
      countSubstr (quoteIdentifier c ++ " " ++ jsRemoveFirst m1 "PRIMARY KEY")
        "REFERENCES" = 0 ∧
      createTableAttributesText tableName attributes opts = some (jsJoin ", " parts) := by
  have hproc : processAttribute c ty
      = some (quoteIdentifier c ++ " " ++ jsRemoveFirst m1 "PRIMARY KEY", true, some m2) := by
    simp [processAttribute, hpk, href, hm]
  obtain ⟨hfragMem, hpkMem, hfkMem⟩ :=
    createTableWalk_mem c ty _ true (some m2) hproc attributes attrStr pks fks hwalk hmem
  have hcpks : c ∈ pks := hpkMem rfl
  have hcfks : (c, m2) ∈ fks := hfkMem m2 rfl
  obtain ⟨p0, pr, hpksEq⟩ : ∃ p0 pr, pks = p0 :: pr := by
    cases pks with
    | nil => cases hcpks
    | cons a b => exact ⟨a, b, rfl⟩
  have hpkLen : 0 < (pkClauseString pks).length := by
    rw [hpksEq]
    exact pkClauseString_pos p0 pr
  have hifpos : (pkClauseString pks).length > 0 := hpkLen
  refine ⟨attrStr ++ uniqueKeyClauses tableName opts.uniqueKeys
      ++ ["PRIMARY KEY (" ++ pkClauseString pks ++ ")"] ++ fks.map fkClause,
    ?_, rfl, ?_, hcpks, ?_, hcfks, hfragMem, ?_, ?_, ?_⟩
  · simp only [createTableParts, hwalk]
    rw [if_pos hifpos]
  · -- exactly one PRIMARY KEY clause
    rw [List.countP_append, List.countP_append, List.countP_append]
    have hA : attrStr.countP (fun s => strStartsWith s "PRIMARY KEY (") = 0 := by
      rw [List.countP_eq_zero]
      intro s hs
      have hhead := createTableWalk_frag_heads attributes attrStr pks fks hwalk s hs
      rw [strStartsWith_false_of_head s "PRIMARY KEY (" '`' 'P' hhead (by decide)
        (by decide)]
      exact Bool.false_ne_true
    have hU : (uniqueKeyClauses tableName opts.uniqueKeys).countP
        (fun s => strStartsWith s "PRIMARY KEY (") = 0 := by
      rw [List.countP_eq_zero]
      intro s hs
      obtain ⟨uk, _, rfl⟩ := List.mem_map.mp hs
      rw [strStartsWith_false_of_head _ "PRIMARY KEY (" 'U' 'P'
        (uniqueKeyClause_head tableName uk) (by decide) (by decide)]
      exact Bool.false_ne_true
    have hF : (fks.map fkClause).countP (fun s => strStartsWith s "PRIMARY KEY (") = 0 := by
      rw [List.countP_eq_zero]
      intro s hs
      obtain ⟨p, _, rfl⟩ := List.mem_map.mp hs
      rw [strStartsWith_false_of_head _ "PRIMARY KEY (" 'F' 'P' (fkClause_head p)
        (by decide) (by decide)]
      exact Bool.false_ne_true
    have hPKone : ([("PRIMARY KEY (" ++ pkClauseString pks ++ ")" : String)]).countP
        (fun s => strStartsWith s "PRIMARY KEY (") = 1 := by
      have hstart : strStartsWith ("PRIMARY KEY (" ++ pkClauseString pks ++ ")")
          "PRIMARY KEY (" = true := by
        rw [String.append_assoc]
        exact strStartsWith_append_self _ _
      simp [List.countP_cons, hstart]
    rw [hA, hU, hF, hPKone]
  · exact fk_count_one attributes attrStr pks fks hwalk hnodup c m2 hcfks
  · exact fragment_clean c (jsRemoveFirst m1 "PRIMARY KEY") "PRIMARY KEY" 'P' (by decide)
      (by decide) (by decide) (by decide) (by decide) hc1 hr1
  · exact fragment_clean c (jsRemoveFirst m1 "PRIMARY KEY") "REFERENCES" 'R' (by decide)
      (by decide) (by decide) (by decide) (by decide) hc2 hr2
  · -- the JS-built text is the comma-join of the clause list
    obtain ⟨f0, A0, hAEq⟩ : ∃ f0 A0, attrStr = f0 :: A0 := by
      cases hattr : attrStr with
      | nil => rw [hattr] at hfragMem; cases hfragMem
      | cons a b => exact ⟨a, b, rfl⟩
    simp only [createTableAttributesText, hwalk]
    rw [if_pos hifpos]
    congr 1
    subst hAEq
    have hsplit : (f0 :: A0) ++ uniqueKeyClauses tableName opts.uniqueKeys
        ++ ["PRIMARY KEY (" ++ pkClauseString pks ++ ")"] ++ fks.map fkClause
        = f0 :: (A0 ++ uniqueKeyClauses tableName opts.uniqueKeys
          ++ ["PRIMARY KEY (" ++ pkClauseString pks ++ ")"] ++ fks.map fkClause) := by
      simp
    have hpkstep : ∀ w : String,
        ([("PRIMARY KEY (" ++ pkClauseString pks ++ ")" : String)]).foldl
          (fun acc cl => acc ++ ", " ++ cl) w
        = w ++ ", PRIMARY KEY (" ++ pkClauseString pks ++ ")" := by
      intro w
      show w ++ ", " ++ ("PRIMARY KEY (" ++ pkClauseString pks ++ ")")
        = w ++ ", PRIMARY KEY (" ++ pkClauseString pks ++ ")"
      exact append_comma_pk w (pkClauseString pks)
    rw [hsplit,
      jsJoin_comma_foldl (A0 ++ uniqueKeyClauses tableName opts.uniqueKeys
        ++ ["PRIMARY KEY (" ++ pkClauseString pks ++ ")"] ++ fks.map fkClause) f0,
      List.foldl_append, List.foldl_append, List.foldl_append,
      ← jsJoin_comma_foldl A0 f0, hpkstep, List.foldl_map]

/-- C2 witness: a two-column table whose first column is both the primary key and a
foreign key. -/
theorem createTable_pk_and_reference_clauses_witness :
    ∃ parts : List String,
      createTableParts "t"
        [("id", "INTEGER PRIMARY KEY REFERENCES owners (id)"), ("name", "VARCHAR(255)")]
        ({} : CreateTableOptions) = some parts ∧
      parts = ["`id` INTEGER ", "`name` VARCHAR(255)"]
        ++ uniqueKeyClauses "t" ({} : CreateTableOptions).uniqueKeys
        ++ ["PRIMARY KEY (" ++ pkClauseString ["id"] ++ ")"]
        ++ ([("id", "REFERENCES owners (id)")].map fkClause) ∧
      parts.countP (fun s => strStartsWith s "PRIMARY KEY (") = 1 ∧
      "id" ∈ ["id"] ∧
      ([("id", "REFERENCES owners (id)")] : List (String × String)).countP
        (fun p => p.1 == "id") = 1 ∧
      ("id", "REFERENCES owners (id)") ∈ ([("id", "REFERENCES owners (id)")] : List (String × String)) ∧
      (quoteIdentifier "id" ++ " " ++ jsRemoveFirst "INTEGER PRIMARY KEY" "PRIMARY KEY")
        ∈ ["`id` INTEGER ", "`name` VARCHAR(255)"] ∧
      countSubstr (quoteIdentifier "id" ++ " " ++ jsRemoveFirst "INTEGER PRIMARY KEY" "PRIMARY KEY")
        "PRIMARY KEY" = 0 ∧
      countSubstr (quoteIdentifier "id" ++ " " ++ jsRemoveFirst "INTEGER PRIMARY KEY" "PRIMARY KEY")
        "REFERENCES" = 0 ∧
      createTableAttributesText "t"
        [("id", "INTEGER PRIMARY KEY REFERENCES owners (id)"), ("name", "VARCHAR(255)")]
        ({} : CreateTableOptions) = some (jsJoin ", " parts) :=
  createTable_pk_and_reference_clauses "t"
    [("id", "INTEGER PRIMARY KEY REFERENCES owners (id)"), ("name", "VARCHAR(255)")]
    ({} : CreateTableOptions) "id" "INTEGER PRIMARY KEY REFERENCES owners (id)"
    "INTEGER PRIMARY KEY" "REFERENCES owners (id)"
    ["`id` INTEGER ", "`name` VARCHAR(255)"] ["id"]
    [("id", "REFERENCES owners (id)")]
    (by decide) (by decide) (by decide) (by decide) (by decide) (by decide)
    (by decide) (by decide) (by decide) (by decide)

/-! ## The structured-value accessor compiler (single-path branch of
`handleSequelizeMethod`) -/

/-- The global replace of `/\.(\d+)\./g` by `[$1].`: left to right, scanning resumes
after each whole match, so of two numeric segments sharing a dot only the first is
rewritten.  The fuel is the input length; every step consumes at least one character. -/
def replaceDotNumDotAux : Nat → List Char → List Char
  | 0, cs => cs
  | _ + 1, [] => []
  | fuel + 1, '.' :: rest =>
      if (rest.takeWhile Char.isDigit) ≠ [] ∧
          (rest.drop (rest.takeWhile Char.isDigit).length).head? = some '.' then
        '[' :: ((rest.takeWhile Char.isDigit) ++ [']', '.']
          ++ replaceDotNumDotAux fuel (rest.drop ((rest.takeWhile Char.isDigit).length + 1)))
      else '.' :: replaceDotNumDotAux fuel rest
  | fuel + 1, c :: rest => c :: replaceDotNumDotAux fuel rest

/-- JS `path.replace(/\.(\d+)\./g, '[$1].')`. -/
def replaceDotNumDot (s : String) : String :=
  String.mk (replaceDotNumDotAux s.data.length s.data)

/-- JS `path.replace(/\.(\d+)$/, '[$1]')`: a maximal trailing digit run preceded by a
dot becomes a bracketed index. -/
def replaceTrailingDotNum (s : String) : String :=
  if (s.data.reverse.takeWhile Char.isDigit) ≠ [] ∧
      (s.data.reverse.drop (s.data.reverse.takeWhile Char.isDigit).length).head?
        = some '.' then
    String.mk ((s.data.reverse.drop
        ((s.data.reverse.takeWhile Char.isDigit).length + 1)).reverse
      ++ '[' :: ((s.data.reverse.takeWhile Char.isDigit).reverse ++ [']']))
  else s

/-- JS `String.prototype.split('.')`. -/
def splitOnDot : List Char → List (List Char)
  | [] => [[]]
  | c :: rest =>
      if c = '.' then [] :: splitOnDot rest
      else
        match splitOnDot rest with
        | r :: rs => (c :: r) :: rs
        | [] => [[c]]

/-- JS `columnName.match(/\[\d+\]$/)`: the index at which a trailing `[digits]` starts. -/
def matchBracketIndexSuffix (cs : List Char) : Option Nat :=
  match cs.reverse with
  | ']' :: rest =>
      if (rest.takeWhile Char.isDigit) ≠ [] ∧
          (rest.drop (rest.takeWhile Char.isDigit).length).head? = some '[' then
        some (cs.length - ((rest.takeWhile Char.isDigit).length + 2))
      else none
  | _ => none

/-- The segments after both numeric-index rewrites and the split on dots. -/
def jsonPathSegments (path : String) : List String :=
  (splitOnDot (replaceTrailingDotNum (replaceDotNumDot path)).data).map String.mk

/-- The dot-notation compilation of a single JSON path (the non-verbatim branch of the
source): normalize the numeric segments, split on dots, shift the column name, split a
trailing `[N]` off the column (dropping the leading `$.` dot in that case), and emit the
`->>` accessor. -/
def compileJsonPath (path0 : String) : String :=
  let segs := jsonPathSegments path0
  let columnName := segs.headD ""
  let rest := segs.tail
  match matchBracketIndexSuffix columnName.data with
  | some idx =>
      quoteIdentifier (String.mk (columnName.data.take idx)) ++ "->>'$"
        ++ jsJoin "." (String.mk (columnName.data.drop idx) :: rest) ++ "'"
  | none => quoteIdentifier columnName ++ "->>'$" ++ "." ++ jsJoin "." rest ++ "'"

/-- The single-path branch of `handleSequelizeMethod` for a `Utils.Json` node: classify
the path with the tokenizer (its parse failure propagates), use the path verbatim when it
is a JSON expression and compile the dot notation otherwise, then append the escaped
comparison value only when it is JS-truthy (present and non-empty). -/
def handleJsonPath (path : String) (value : Option String) : Except String String :=
  (checkValidJsonStatement path).map (fun isJson =>
    let str := if isJson then path else compileJsonPath path
    match value with
    | some v => if v ≠ "" then str ++ " = " ++ escapeLiteral v else str
    | none => str)

/-- C8 counterexample: a supplied-but-empty comparison value is JS-falsy, so nothing is
appended, refuting the claim that a supplied value always appends ` = <escaped>`. -/
theorem json_path_falsy_value_not_appended :
    handleJsonPath "profile.id" (some "") = Except.ok "`profile`->>'$.id'" ∧
    ("`profile`->>'$.id'" : String)
      ≠ "`profile`->>'$.id'" ++ " = " ++ escapeLiteral "" := by
  exact ⟨rfl, by decide⟩

/-- C8 amended: when the tokenizer classifies the path as a compiled JSON expression it
is used verbatim; otherwise the dot/bracket-normalized accessor is emitted, with the
leading dot exactly when the first segment carries no trailing `[N]` index; the escaped
comparison value is appended exactly when the supplied value is JS-truthy (non-empty),
and a tokenizer parse failure propagates. -/
theorem json_path_compilation_characterized (path : String) (v : String) :
    (checkValidJsonStatement path = Except.ok true →
        handleJsonPath path none = Except.ok path) ∧
    (checkValidJsonStatement path = Except.ok false →
        handleJsonPath path none = Except.ok (compileJsonPath path) ∧
        handleJsonPath path (some "") = Except.ok (compileJsonPath path) ∧
        (v ≠ "" → handleJsonPath path (some v)
            = Except.ok (compileJsonPath path ++ " = " ++ escapeLiteral v)) ∧
        (matchBracketIndexSuffix ((jsonPathSegments path).headD "").data = none →
          compileJsonPath path = quoteIdentifier ((jsonPathSegments path).headD "")
            ++ "->>'$" ++ "." ++ jsJoin "." (jsonPathSegments path).tail ++ "'") ∧
        (∀ idx, matchBracketIndexSuffix ((jsonPathSegments path).headD "").data = some idx →
          compileJsonPath path
            = quoteIdentifier (String.mk (((jsonPathSegments path).headD "").data.take idx))
              ++ "->>'$"
              ++ jsJoin "." (String.mk (((jsonPathSegments path).headD "").data.drop idx)
                  :: (jsonPathSegments path).tail) ++ "'")) ∧
    (∀ e, checkValidJsonStatement path = Except.error e →
        handleJsonPath path (some v) = Except.error e) := by
  refine ⟨?_, ?_, ?_⟩
  · intro h
    simp [handleJsonPath, h, Except.map]
  · intro h
    refine ⟨by simp [handleJsonPath, h, Except.map], by simp [handleJsonPath, h, Except.map],
      ?_, ?_, ?_⟩
    · intro hv
      simp [handleJsonPath, h, Except.map, hv]
    · intro hb
      simp only [compileJsonPath]
      rw [hb]
    · intro idx hb
      simp only [compileJsonPath]
      rw [hb]
  · intro e h
    simp [handleJsonPath, h, Except.map]

/-- C8 witness: a path with an interior numeric segment and a truthy comparison value. -/
theorem json_path_compilation_characterized_witness :
    handleJsonPath "profile.0.name" (some "x")
      = Except.ok ("`profile`->>'$[0].name'" ++ " = " ++ escapeLiteral "x") := by
  have h := ((json_path_compilation_characterized "profile.0.name" "x").2.1 (by rfl)).2.2.1
    (by decide)
  rw [h]
  rfl

end SequelizeMySQL
